import Mathlib

/-!
Verification of the kapp preflight-safety core: the CRD upgrade-safety engine
(schema flattener, flat-schema differ, change-validation chain) and the RBAC
permission-preflight engine (validator strategies, rule resolvers, preflight run).

Go source is embedded shallowly:
- `v1.JSONSchemaProps` keeps the fields the core reads or writes (ID, Type, Enum,
  Required, Default, MinLength, Properties); `reflect.DeepEqual` becomes decidable
  equality on this restriction.
- Go maps become association lists with last-write-wins insertion (`mapInsert`);
  iteration follows list order (one admissible Go map iteration order).
- in-place mutation through pointers (`diff.Old.Enum = ...`) becomes explicit
  state passing: a validation returns the post-mutation `FieldDiff`.
- fallible calls return `Option`/`Except`; remote clients are oracles passed in.
-/

mutual
/-- Restriction of `v1.JSONSchemaProps` to the fields the kapp crdupgradesafety
core reads or writes. `typ` stands for the Go field `Type`. Enum values are the
raw JSON bytes as strings (the Go code compares `string(enum.Raw)`). -/
inductive JSONSchemaProps where
  | mk (ID : String) (typ : String) (Enum : List String) (Required : List String)
       (Default : Option String) (MinLength : Option Int) (Properties : PropList)
  deriving DecidableEq, Repr
/-- Association list of child name to child schema, modelling the Go map
`Properties map[string]JSONSchemaProps` (keys unique, fixed iteration order). -/
inductive PropList where
  | nil
  | cons (name : String) (child : JSONSchemaProps) (rest : PropList)
  deriving DecidableEq, Repr
end

def JSONSchemaProps.Enum : JSONSchemaProps → List String
  | .mk _ _ e _ _ _ _ => e

def JSONSchemaProps.Required : JSONSchemaProps → List String
  | .mk _ _ _ r _ _ _ => r

def JSONSchemaProps.Properties : JSONSchemaProps → PropList
  | .mk _ _ _ _ _ _ ps => ps

/-- Assignment `s.Enum = e` on a copy of `s`. -/
def JSONSchemaProps.setEnum : JSONSchemaProps → List String → JSONSchemaProps
  | .mk a b _ d e f ps, en => .mk a b en d e f ps

/-- Assignment `s.Required = r` on a copy of `s`. -/
def JSONSchemaProps.setRequired : JSONSchemaProps → List String → JSONSchemaProps
  | .mk a b c _ e f ps, r => .mk a b c r e f ps

/-- Assignment `s.Properties = nil` on a copy of `s`, as done by
`CalculateFlatSchemaDiff` before comparing. -/
def JSONSchemaProps.clearProperties : JSONSchemaProps → JSONSchemaProps
  | .mk a b c d e f _ => .mk a b c d e f .nil

/-- FieldDiff is the old/new schema-node pair at one path. The Go struct holds
pointers, so validations mutate the caller's nodes; here a validation returns
the post-mutation pair explicitly. -/
structure FieldDiff where
  Old : JSONSchemaProps
  New : JSONSchemaProps
  deriving DecidableEq, Repr

/-- Result of one `ChangeValidation` call: the post-mutation state of the
caller's `FieldDiff` nodes, the handled flag, and the error (if any). -/
structure ValidationResult where
  diff : FieldDiff
  handled : Bool
  err : Option String
  deriving DecidableEq, Repr

/-- Insertion-order deduplication with an explicit seen accumulator, modelling
the Go `sets.NewString` insertion loops (first occurrence kept). -/
def dedupStrGo (seen : List String) : List String → List String
  | [] => []
  | v :: rest => if v ∈ seen then dedupStrGo seen rest else v :: dedupStrGo (seen ++ [v]) rest

def dedupStr (l : List String) : List String := dedupStrGo [] l

def enumsAddedMsg : String :=
  "enums added when there were no enum restrictions previously"

def enumValuesRemovedMsg (removed : List String) : String :=
  "enum values removed: " ++ toString removed

/-- EnumChangeValidation from change_validator.go. The Go `handled` closure
clears `diff.Old.Enum` and `diff.New.Enum` in place (visible to the caller) and
deep-compares the remainder; it runs on every return path, so every branch here
returns the cleared pair. -/
def EnumChangeValidation (diff : FieldDiff) : ValidationResult :=
  let clearedOld := diff.Old.setEnum []
  let clearedNew := diff.New.setEnum []
  let postDiff : FieldDiff := ⟨clearedOld, clearedNew⟩
  let handled : Bool := clearedOld == clearedNew
  if diff.Old.Enum.length = 0 ∧ diff.New.Enum.length > 0 then
    ⟨postDiff, handled, some enumsAddedMsg⟩
  else
    let oldSet := dedupStr diff.Old.Enum
    let newSet := dedupStr diff.New.Enum
    let diffSet := oldSet.filter (fun v => ¬ v ∈ newSet)
    if diffSet.length > 0 then
      ⟨postDiff, handled, some (enumValuesRemovedMsg diffSet)⟩
    else
      ⟨postDiff, handled, none⟩

def newRequiredNoPriorMsg (newRequired : List String) : String :=
  "new values added as required when previously no required fields existed: " ++
    toString newRequired

def newRequiredAddedMsg (added : List String) : String :=
  "new required fields added: " ++ toString added

/-- RequiredFieldChangeValidation from change_validator.go. Same in-place
clearing pattern as `EnumChangeValidation`, on the `Required` field; the unsafe
direction is names added to the required set. -/
def RequiredFieldChangeValidation (diff : FieldDiff) : ValidationResult :=
  let clearedOld := diff.Old.setRequired []
  let clearedNew := diff.New.setRequired []
  let postDiff : FieldDiff := ⟨clearedOld, clearedNew⟩
  let handled : Bool := clearedOld == clearedNew
  if diff.Old.Required.length = 0 ∧ diff.New.Required.length > 0 then
    ⟨postDiff, handled, some (newRequiredNoPriorMsg diff.New.Required)⟩
  else
    let oldSet := dedupStr diff.Old.Required
    let newSet := dedupStr diff.New.Required
    let diffSet := newSet.filter (fun v => ¬ v ∈ oldSet)
    if diffSet.length > 0 then
      ⟨postDiff, handled, some (newRequiredAddedMsg diffSet)⟩
    else
      ⟨postDiff, handled, none⟩

@[simp] theorem setEnum_Enum (s : JSONSchemaProps) (e : List String) :
    (s.setEnum e).Enum = e := by cases s; rfl

@[simp] theorem setEnum_Required (s : JSONSchemaProps) (e : List String) :
    (s.setEnum e).Required = s.Required := by cases s; rfl

@[simp] theorem setRequired_Required (s : JSONSchemaProps) (r : List String) :
    (s.setRequired r).Required = r := by cases s; rfl

@[simp] theorem setRequired_Enum (s : JSONSchemaProps) (r : List String) :
    (s.setRequired r).Enum = s.Enum := by cases s; rfl

theorem mem_dedupStrGo {v : String} :
    ∀ (l seen : List String), v ∈ dedupStrGo seen l ↔ v ∈ l ∧ v ∉ seen := by
  intro l
  induction l with
  | nil => intro seen; simp [dedupStrGo]
  | cons a rest ih =>
    intro seen
    by_cases h : a ∈ seen
    · rw [dedupStrGo, if_pos h, ih]
      simp only [List.mem_cons]
      constructor
      · tauto
      · rintro ⟨rfl | hr, hs⟩
        · exact absurd h hs
        · exact ⟨hr, hs⟩
    · rw [dedupStrGo, if_neg h]
      simp only [List.mem_cons, ih, List.mem_append, List.mem_singleton]
      constructor
      · rintro (rfl | ⟨hr, hs⟩) <;> tauto
      · rintro ⟨rfl | hr, hs⟩
        · tauto
        · by_cases hva : v = a <;> tauto

theorem mem_dedupStr {v : String} {l : List String} : v ∈ dedupStr l ↔ v ∈ l := by
  simp [dedupStr, mem_dedupStrGo]

/-- Sample leaf schema node used by concrete witness instances. -/
def sampleNode (id : String) (en req : List String) : JSONSchemaProps :=
  .mk id "" en req none none .nil

/-- C4: EnumChangeValidation errors whenever enum restrictions are newly
introduced where none existed, and whenever any previously-allowed enum value is
removed (the error names the removed values); it returns no error when enum
values are only added to an existing restricted set or left unchanged, and it
reports handled exactly when the nodes agree outside the enum field (so in
only-enum-changed cases handled is true). -/
theorem EnumChangeValidation_correct :
    (∀ d : FieldDiff, d.Old.Enum = [] → d.New.Enum ≠ [] →
      (EnumChangeValidation d).err = some enumsAddedMsg) ∧
    (∀ d : FieldDiff, d.Old.Enum ≠ [] →
      (∃ v, v ∈ d.Old.Enum ∧ v ∉ d.New.Enum) →
      ∃ removed, removed ≠ [] ∧
        (EnumChangeValidation d).err = some (enumValuesRemovedMsg removed) ∧
        (∀ v, v ∈ removed ↔ v ∈ d.Old.Enum ∧ v ∉ d.New.Enum)) ∧
    (∀ d : FieldDiff, (d.Old.Enum ≠ [] ∨ d.New.Enum = []) →
      (∀ v ∈ d.Old.Enum, v ∈ d.New.Enum) →
      (EnumChangeValidation d).err = none) ∧
    (∀ d : FieldDiff, d.Old.setEnum [] = d.New.setEnum [] →
      (EnumChangeValidation d).handled = true) := by
  refine ⟨?_, ?_, ?_, ?_⟩
  · intro d h1 h2
    have hc : d.Old.Enum.length = 0 ∧ d.New.Enum.length > 0 :=
      ⟨by simp [h1], List.length_pos.mpr h2⟩
    simp only [EnumChangeValidation]
    rw [if_pos hc]
  · rintro d h1 ⟨v, hv, hnv⟩
    have hcond : ¬(d.Old.Enum.length = 0 ∧ d.New.Enum.length > 0) := by
      rintro ⟨hl, _⟩
      exact h1 (List.length_eq_zero.mp hl)
    have hmem : ∀ w, w ∈ (dedupStr d.Old.Enum).filter (fun w => ¬ w ∈ dedupStr d.New.Enum) ↔
        w ∈ d.Old.Enum ∧ w ∉ d.New.Enum := by
      intro w
      simp [List.mem_filter, mem_dedupStr]
    have hvr : v ∈ (dedupStr d.Old.Enum).filter (fun w => ¬ w ∈ dedupStr d.New.Enum) :=
      (hmem v).mpr ⟨hv, hnv⟩
    have hlen : ((dedupStr d.Old.Enum).filter (fun w => ¬ w ∈ dedupStr d.New.Enum)).length > 0 :=
      List.length_pos.mpr (List.ne_nil_of_mem hvr)
    refine ⟨_, List.ne_nil_of_mem hvr, ?_, hmem⟩
    simp only [EnumChangeValidation]
    rw [if_neg hcond, if_pos hlen]
  · intro d h1 h2
    have hcond : ¬(d.Old.Enum.length = 0 ∧ d.New.Enum.length > 0) := by
      rintro ⟨hl, hg⟩
      rcases h1 with h | h
      · exact h (List.length_eq_zero.mp hl)
      · rw [h] at hg
        exact Nat.lt_irrefl _ hg
    have hfil : (List.filter (fun v => !decide (v ∈ dedupStr d.New.Enum)) (dedupStr d.Old.Enum)) = [] := by
      rw [List.filter_eq_nil_iff]
      intro w hw
      simp only [mem_dedupStr] at hw
      simp [mem_dedupStr, h2 w hw]
    simp only [EnumChangeValidation]
    rw [if_neg hcond]
    simp [hfil]
  · intro d h
    simp only [EnumChangeValidation]
    split
    · simp [h]
    · split <;> simp [h]

/-- Concrete instances discharging the hypotheses of `EnumChangeValidation_correct`. -/
theorem EnumChangeValidation_correct_witness :
    (EnumChangeValidation ⟨sampleNode "" [] [], sampleNode "" ["a"] []⟩).err = some enumsAddedMsg ∧
    (∃ removed, removed ≠ [] ∧
      (EnumChangeValidation ⟨sampleNode "" ["a", "b"] [], sampleNode "" ["b"] []⟩).err =
        some (enumValuesRemovedMsg removed) ∧
      (∀ v, v ∈ removed ↔
        v ∈ (sampleNode "" ["a", "b"] []).Enum ∧ v ∉ (sampleNode "" ["b"] []).Enum)) ∧
    (EnumChangeValidation ⟨sampleNode "" ["a"] [], sampleNode "" ["a", "b"] []⟩).err = none ∧
    (EnumChangeValidation ⟨sampleNode "" ["a"] [], sampleNode "" ["b"] []⟩).handled = true :=
  ⟨EnumChangeValidation_correct.1 _ (by decide) (by decide),
   EnumChangeValidation_correct.2.1 _ (by decide) ⟨"a", by decide, by decide⟩,
   EnumChangeValidation_correct.2.2.1 _ (Or.inl (by decide)) (by decide),
   EnumChangeValidation_correct.2.2.2 _ (by decide)⟩

/-- C5: RequiredFieldChangeValidation errors whenever fields become required
where the old node had no required members, and whenever any name is added to
the required set relative to the old set (the error names the added fields); it
returns no error when required names are only removed or unchanged, and it
reports handled exactly when the nodes agree outside the required field (so in
only-required-changed cases handled is true). -/
theorem RequiredFieldChangeValidation_correct :
    (∀ d : FieldDiff, d.Old.Required = [] → d.New.Required ≠ [] →
      (RequiredFieldChangeValidation d).err = some (newRequiredNoPriorMsg d.New.Required)) ∧
    (∀ d : FieldDiff, d.Old.Required ≠ [] →
      (∃ v, v ∈ d.New.Required ∧ v ∉ d.Old.Required) →
      ∃ added, added ≠ [] ∧
        (RequiredFieldChangeValidation d).err = some (newRequiredAddedMsg added) ∧
        (∀ v, v ∈ added ↔ v ∈ d.New.Required ∧ v ∉ d.Old.Required)) ∧
    (∀ d : FieldDiff, (∀ v ∈ d.New.Required, v ∈ d.Old.Required) →
      (RequiredFieldChangeValidation d).err = none) ∧
    (∀ d : FieldDiff, d.Old.setRequired [] = d.New.setRequired [] →
      (RequiredFieldChangeValidation d).handled = true) := by
  refine ⟨?_, ?_, ?_, ?_⟩
  · intro d h1 h2
    have hc : d.Old.Required.length = 0 ∧ d.New.Required.length > 0 :=
      ⟨by simp [h1], List.length_pos.mpr h2⟩
    simp only [RequiredFieldChangeValidation]
    rw [if_pos hc]
  · rintro d h1 ⟨v, hv, hnv⟩
    have hcond : ¬(d.Old.Required.length = 0 ∧ d.New.Required.length > 0) := by
      rintro ⟨hl, _⟩
      exact h1 (List.length_eq_zero.mp hl)
    have hmem : ∀ w, w ∈ (dedupStr d.New.Required).filter (fun w => ¬ w ∈ dedupStr d.Old.Required) ↔
        w ∈ d.New.Required ∧ w ∉ d.Old.Required := by
      intro w
      simp [List.mem_filter, mem_dedupStr]
    have hvr : v ∈ (dedupStr d.New.Required).filter (fun w => ¬ w ∈ dedupStr d.Old.Required) :=
      (hmem v).mpr ⟨hv, hnv⟩
    have hlen : ((dedupStr d.New.Required).filter (fun w => ¬ w ∈ dedupStr d.Old.Required)).length > 0 :=
      List.length_pos.mpr (List.ne_nil_of_mem hvr)
    refine ⟨_, List.ne_nil_of_mem hvr, ?_, hmem⟩
    simp only [RequiredFieldChangeValidation]
    rw [if_neg hcond, if_pos hlen]
  · intro d h2
    have hcond : ¬(d.Old.Required.length = 0 ∧ d.New.Required.length > 0) := by
      rintro ⟨hl, hg⟩
      have hold := List.length_eq_zero.mp hl
      have hne : d.New.Required ≠ [] := by
        intro hn
        rw [hn] at hg
        exact Nat.lt_irrefl _ hg
      obtain ⟨v, hv⟩ := List.exists_mem_of_ne_nil _ hne
      have := h2 v hv
      rw [hold] at this
      exact List.not_mem_nil v this
    have hfil : (List.filter (fun v => !decide (v ∈ dedupStr d.Old.Required)) (dedupStr d.New.Required)) = [] := by
      rw [List.filter_eq_nil_iff]
      intro w hw
      simp only [mem_dedupStr] at hw
      simp [mem_dedupStr, h2 w hw]
    simp only [RequiredFieldChangeValidation]
    rw [if_neg hcond]
    simp [hfil]
  · intro d h
    simp only [RequiredFieldChangeValidation]
    split
    · simp [h]
    · split <;> simp [h]

/-- Concrete instances discharging the hypotheses of
`RequiredFieldChangeValidation_correct`. -/
theorem RequiredFieldChangeValidation_correct_witness :
    (RequiredFieldChangeValidation ⟨sampleNode "" [] [], sampleNode "" [] ["a"]⟩).err =
      some (newRequiredNoPriorMsg ["a"]) ∧
    (∃ added, added ≠ [] ∧
      (RequiredFieldChangeValidation ⟨sampleNode "" [] ["a"], sampleNode "" [] ["a", "b"]⟩).err =
        some (newRequiredAddedMsg added) ∧
      (∀ v, v ∈ added ↔
        v ∈ (sampleNode "" [] ["a", "b"]).Required ∧ v ∉ (sampleNode "" [] ["a"]).Required)) ∧
    (RequiredFieldChangeValidation ⟨sampleNode "" [] ["a", "b"], sampleNode "" [] ["a"]⟩).err = none ∧
    (RequiredFieldChangeValidation ⟨sampleNode "" [] ["a"], sampleNode "" [] ["b"]⟩).handled = true :=
  ⟨RequiredFieldChangeValidation_correct.1 _ (by decide) (by decide),
   RequiredFieldChangeValidation_correct.2.1 _ (by decide) ⟨"b", by decide, by decide⟩,
   RequiredFieldChangeValidation_correct.2.2.1 _ (by decide),
   RequiredFieldChangeValidation_correct.2.2.2 _ (by decide)⟩

/-- C10: on every return path EnumChangeValidation leaves both nodes of the
caller's FieldDiff with the Enum field cleared, and RequiredFieldChangeValidation
leaves both with the Required field cleared (the mutation is modelled by the
returned post-state, which the validation chain threads to later validators);
the returned handled flag is true exactly when the two nodes are deeply equal
after this clearing. -/
theorem validation_frame_effects :
    ∀ d : FieldDiff,
      (EnumChangeValidation d).diff.Old = d.Old.setEnum [] ∧
      (EnumChangeValidation d).diff.New = d.New.setEnum [] ∧
      (EnumChangeValidation d).diff.Old.Enum = [] ∧
      (EnumChangeValidation d).diff.New.Enum = [] ∧
      ((EnumChangeValidation d).handled = true ↔
        (EnumChangeValidation d).diff.Old = (EnumChangeValidation d).diff.New) ∧
      (RequiredFieldChangeValidation d).diff.Old = d.Old.setRequired [] ∧
      (RequiredFieldChangeValidation d).diff.New = d.New.setRequired [] ∧
      (RequiredFieldChangeValidation d).diff.Old.Required = [] ∧
      (RequiredFieldChangeValidation d).diff.New.Required = [] ∧
      ((RequiredFieldChangeValidation d).handled = true ↔
        (RequiredFieldChangeValidation d).diff.Old = (RequiredFieldChangeValidation d).diff.New) := by
  intro d
  have e1 : (EnumChangeValidation d).diff = ⟨d.Old.setEnum [], d.New.setEnum []⟩ := by
    simp only [EnumChangeValidation]
    split
    · rfl
    · split <;> rfl
  have e2 : (EnumChangeValidation d).handled = (d.Old.setEnum [] == d.New.setEnum []) := by
    simp only [EnumChangeValidation]
    split
    · rfl
    · split <;> rfl
  have r1 : (RequiredFieldChangeValidation d).diff = ⟨d.Old.setRequired [], d.New.setRequired []⟩ := by
    simp only [RequiredFieldChangeValidation]
    split
    · rfl
    · split <;> rfl
  have r2 : (RequiredFieldChangeValidation d).handled =
      (d.Old.setRequired [] == d.New.setRequired []) := by
    simp only [RequiredFieldChangeValidation]
    split
    · rfl
    · split <;> rfl
  refine ⟨by rw [e1], by rw [e1], by rw [e1]; simp, by rw [e1]; simp, ?_, by rw [r1], by rw [r1],
    by rw [r1]; simp, by rw [r1]; simp, ?_⟩
  · rw [e1, e2]
    simp [beq_iff_eq]
  · rw [r1, r2]
    simp [beq_iff_eq]

/-- FlatSchema is the Go `map[string]*v1.JSONSchemaProps`, modelled as an
association list in one admissible iteration order. -/
abbrev FlatSchema := List (String × JSONSchemaProps)

def fieldNotFoundMsg (field : String) : String :=
  "field \x22" ++ field ++ "\x22 in existing not found in new"

/-- CalculateFlatSchemaDiff from change_validator.go: iterate the old flat
schema; a field missing from the new one stops iteration, returning the diff
map accumulated so far together with the error; otherwise compare the two nodes
with child properties cleared and record a FieldDiff when they differ. -/
def CalculateFlatSchemaDiff : FlatSchema → FlatSchema → List (String × FieldDiff) × Option String
  | [], _ => ([], none)
  | (field, schema) :: rest, n =>
    match n.lookup field with
    | none => ([], some (fieldNotFoundMsg field))
    | some newSchema =>
      let oldCopy := schema.clearProperties
      let newCopy := newSchema.clearProperties
      let tail := CalculateFlatSchemaDiff rest n
      if oldCopy = newCopy then tail
      else ((field, ⟨oldCopy, newCopy⟩) :: tail.1, tail.2)

theorem calcDiff_missing_field :
    ∀ (o1 : FlatSchema) (f : String) (s : JSONSchemaProps) (o2 n : FlatSchema),
      (∀ p ∈ o1, (n.lookup p.1).isSome) → n.lookup f = none →
      (CalculateFlatSchemaDiff (o1 ++ (f, s) :: o2) n).2 = some (fieldNotFoundMsg f) ∧
      (CalculateFlatSchemaDiff (o1 ++ (f, s) :: o2) n).1 = (CalculateFlatSchemaDiff o1 n).1 := by
  intro o1
  induction o1 with
  | nil =>
    intro f s o2 n _ hf
    simp [CalculateFlatSchemaDiff, hf]
  | cons p o1' ih =>
    intro f s o2 n h1 hf
    obtain ⟨t, ht⟩ := Option.isSome_iff_exists.mp (h1 p (by simp))
    obtain ⟨ih2, ih1⟩ := ih f s o2 n (fun q hq => h1 q (by simp [hq])) hf
    obtain ⟨pf, ps⟩ := p
    simp only [List.cons_append, CalculateFlatSchemaDiff, ht]
    by_cases hc : ps.clearProperties = t.clearProperties
    · simp [hc, ih1, ih2]
    · simp [hc, ih1, ih2]

theorem calcDiff_no_error :
    ∀ (o n : FlatSchema), (∀ p ∈ o, (n.lookup p.1).isSome) →
      (CalculateFlatSchemaDiff o n).2 = none := by
  intro o
  induction o with
  | nil => intro n _; simp [CalculateFlatSchemaDiff]
  | cons p o' ih =>
    intro n h1
    obtain ⟨t, ht⟩ := Option.isSome_iff_exists.mp (h1 p (by simp))
    obtain ⟨pf, ps⟩ := p
    simp only [CalculateFlatSchemaDiff, ht]
    by_cases hc : ps.clearProperties = t.clearProperties
    · simp [hc, ih n (fun q hq => h1 q (by simp [hq]))]
    · simp [hc, ih n (fun q hq => h1 q (by simp [hq]))]

theorem calcDiff_mem :
    ∀ (o n : FlatSchema), (∀ p ∈ o, (n.lookup p.1).isSome) →
      ∀ (f : String) (d : FieldDiff),
      ((f, d) ∈ (CalculateFlatSchemaDiff o n).1 ↔
        ∃ s t, (f, s) ∈ o ∧ n.lookup f = some t ∧
          s.clearProperties ≠ t.clearProperties ∧
          d = ⟨s.clearProperties, t.clearProperties⟩) := by
  intro o
  induction o with
  | nil => intro n _ f d; simp [CalculateFlatSchemaDiff]
  | cons p o' ih =>
    intro n h1 f d
    obtain ⟨t, ht⟩ := Option.isSome_iff_exists.mp (h1 p (by simp))
    obtain ⟨pf, ps⟩ := p
    have ihm := ih n (fun q hq => h1 q (by simp [hq])) f d
    simp only [CalculateFlatSchemaDiff, ht]
    by_cases hc : ps.clearProperties = t.clearProperties
    · rw [if_pos hc]
      rw [ihm]
      constructor
      · rintro ⟨s, t', hs, hl, hne, hd⟩
        exact ⟨s, t', List.mem_cons_of_mem _ hs, hl, hne, hd⟩
      · rintro ⟨s, t', hs, hl, hne, hd⟩
        rcases List.mem_cons.mp hs with heq | hs'
        · rw [Prod.ext_iff] at heq
          obtain ⟨rfl, rfl⟩ := heq
          rw [ht] at hl
          cases hl
          exact absurd hc hne
        · exact ⟨s, t', hs', hl, hne, hd⟩
    · rw [if_neg hc]
      simp only [List.mem_cons, Prod.mk.injEq]
      constructor
      · rintro (⟨rfl, rfl⟩ | hm)
        · exact ⟨ps, t, Or.inl ⟨rfl, rfl⟩, ht, hc, rfl⟩
        · obtain ⟨s, t', hs, hl, hne, hd⟩ := ihm.mp hm
          exact ⟨s, t', Or.inr hs, hl, hne, hd⟩
      · rintro ⟨s, t', hs | hs, hl, hne, hd⟩
        · obtain ⟨rfl, rfl⟩ := hs
          rw [ht] at hl
          cases hl
          exact Or.inl ⟨rfl, hd⟩
        · exact Or.inr (ihm.mpr ⟨s, t', hs, hl, hne, hd⟩)

/-- C3 is refuted as stated: on a missing path the Go code returns the diff map
accumulated so far together with the error (`return diffMap, fmt.Errorf(...)`),
so a partial diff is returned. Concretely, with old mapping ^.a to X and ^.b
to Y, and new mapping ^.a to Z only (X and Z differing in ID), the failing
call returns the error naming ^.b and a non-empty diff map still holding the
entry for ^.a. -/
theorem CalculateFlatSchemaDiff_partial_diff_counterexample :
    (CalculateFlatSchemaDiff
        [("^.a", sampleNode "x" [] []), ("^.b", sampleNode "" [] [])]
        [("^.a", sampleNode "y" [] [])]).2 = some (fieldNotFoundMsg "^.b") ∧
    (CalculateFlatSchemaDiff
        [("^.a", sampleNode "x" [] []), ("^.b", sampleNode "" [] [])]
        [("^.a", sampleNode "y" [] [])]).1 =
      [("^.a", ⟨sampleNode "x" [] [], sampleNode "y" [] []⟩)] := by
  decide

/-- C3 (amended): for any path present in old but absent from new,
CalculateFlatSchemaDiff fails with an error identifying the first such path in
iteration order, returning alongside the error the diff entries accumulated
before that path (so for a single-entry old map the accompanying diff is
empty); when no path of old is missing from new it returns no error, and
records a Field Diff at a common path exactly when the two nodes are
structurally unequal after clearing child-node content, while paths present
only in new are ignored; so diffing ^.a: X against an empty new map errors
naming ^.a with an empty diff, diffing ^.a: X against ^.a: X yields an empty
diff set, and diffing ^.a: X against ^.a: Y with X, Y differing outside child
content yields exactly one Field Diff at ^.a. -/
theorem CalculateFlatSchemaDiff_correct :
    (∀ (o1 : FlatSchema) (f : String) (s : JSONSchemaProps) (o2 n : FlatSchema),
      (∀ p ∈ o1, (n.lookup p.1).isSome) → n.lookup f = none →
      (CalculateFlatSchemaDiff (o1 ++ (f, s) :: o2) n).2 = some (fieldNotFoundMsg f) ∧
      (CalculateFlatSchemaDiff (o1 ++ (f, s) :: o2) n).1 = (CalculateFlatSchemaDiff o1 n).1) ∧
    (∀ (o n : FlatSchema), (∀ p ∈ o, (n.lookup p.1).isSome) →
      (CalculateFlatSchemaDiff o n).2 = none ∧
      (∀ (f : String) (d : FieldDiff),
        (f, d) ∈ (CalculateFlatSchemaDiff o n).1 ↔
          ∃ s t, (f, s) ∈ o ∧ n.lookup f = some t ∧
            s.clearProperties ≠ t.clearProperties ∧
            d = ⟨s.clearProperties, t.clearProperties⟩)) ∧
    (∀ X : JSONSchemaProps,
      CalculateFlatSchemaDiff [("^.a", X)] [] = ([], some (fieldNotFoundMsg "^.a"))) ∧
    (∀ X : JSONSchemaProps,
      CalculateFlatSchemaDiff [("^.a", X)] [("^.a", X)] = ([], none)) ∧
    (∀ X Y : JSONSchemaProps, X.clearProperties ≠ Y.clearProperties →
      CalculateFlatSchemaDiff [("^.a", X)] [("^.a", Y)] =
        ([("^.a", ⟨X.clearProperties, Y.clearProperties⟩)], none)) := by
  refine ⟨calcDiff_missing_field, ?_, ?_, ?_, ?_⟩
  · intro o n h
    exact ⟨calcDiff_no_error o n h, calcDiff_mem o n h⟩
  · intro X
    simp [CalculateFlatSchemaDiff]
  · intro X
    simp [CalculateFlatSchemaDiff, List.lookup]
  · intro X Y h
    simp [CalculateFlatSchemaDiff, List.lookup, h]

/-- Concrete instances discharging the hypotheses of
`CalculateFlatSchemaDiff_correct`. -/
theorem CalculateFlatSchemaDiff_correct_witness :
    ((CalculateFlatSchemaDiff [("^.c", sampleNode "x" [] []), ("^.b", sampleNode "" [] [])]
        [("^.c", sampleNode "y" [] [])]).2 = some (fieldNotFoundMsg "^.b") ∧
      (CalculateFlatSchemaDiff [("^.c", sampleNode "x" [] []), ("^.b", sampleNode "" [] [])]
        [("^.c", sampleNode "y" [] [])]).1 =
        (CalculateFlatSchemaDiff [("^.c", sampleNode "x" [] [])]
          [("^.c", sampleNode "y" [] [])]).1) ∧
    (CalculateFlatSchemaDiff [("^.c", sampleNode "x" [] [])] [("^.c", sampleNode "y" [] [])]).2 =
      none ∧
    CalculateFlatSchemaDiff [("^.a", sampleNode "x" [] [])] [] =
      ([], some (fieldNotFoundMsg "^.a")) ∧
    CalculateFlatSchemaDiff [("^.a", sampleNode "x" [] [])] [("^.a", sampleNode "x" [] [])] =
      ([], none) ∧
    CalculateFlatSchemaDiff [("^.a", sampleNode "x" [] [])] [("^.a", sampleNode "y" [] [])] =
      ([("^.a", ⟨(sampleNode "x" [] []).clearProperties, (sampleNode "y" [] []).clearProperties⟩)],
        none) :=
  ⟨CalculateFlatSchemaDiff_correct.1 [("^.c", sampleNode "x" [] [])] "^.b" (sampleNode "" [] [])
      [] [("^.c", sampleNode "y" [] [])] (by decide) (by decide),
   (CalculateFlatSchemaDiff_correct.2.1 [("^.c", sampleNode "x" [] [])]
      [("^.c", sampleNode "y" [] [])] (by decide)).1,
   CalculateFlatSchemaDiff_correct.2.2.1 (sampleNode "x" [] []),
   CalculateFlatSchemaDiff_correct.2.2.2.1 (sampleNode "x" [] []),
   CalculateFlatSchemaDiff_correct.2.2.2.2 (sampleNode "x" [] []) (sampleNode "y" [] [])
      (by decide)⟩

/-- Go map assignment `m[k] = v`: replaces the value at an existing key,
otherwise appends the binding. -/
def mapInsert : FlatSchema → String → JSONSchemaProps → FlatSchema
  | [], k, v => [(k, v)]
  | (k', v') :: rest, k, v =>
    if k' = k then (k, v) :: rest else (k', v') :: mapInsert rest k v

mutual
/-- Modelled from the spec: FlattenSchema walks the schema via the external
`manifestcomparators.SchemaHas` (depth-first, root first, then each property
child at the parent's path with `.name` appended), recording a deep copy of
every visited node into the Go map `fieldMap` keyed by the synthetic path.
The traversal itself is library code absent from this repository; it is
modelled here restricted to `Properties` children, per spec section 4.1, the
FlattenSchema doc comment and TestFlattenSchema. -/
def FlattenSchemaInto (acc : FlatSchema) (path : String) : JSONSchemaProps → FlatSchema
  | .mk a b c d e f ps => flattenProps (mapInsert acc path (.mk a b c d e f ps)) path ps
def flattenProps (acc : FlatSchema) (path : String) : PropList → FlatSchema
  | .nil => acc
  | .cons n c rest => flattenProps (FlattenSchemaInto acc (path ++ "." ++ n) c) path rest
end

/-- FlattenSchema from change_validator.go: the root is recorded at path `^`;
a nil schema pointer is never visited, yielding an empty map. -/
def FlattenSchema : Option JSONSchemaProps → FlatSchema
  | none => []
  | some s => FlattenSchemaInto [] "^" s

mutual
/-- Specification-side enumeration of every reachable node of a schema tree
together with its access path (the list of property names from the root). -/
def allNodes : JSONSchemaProps → List (List String × JSONSchemaProps)
  | .mk a b c d e f ps => ([], .mk a b c d e f ps) :: allNodesProps ps
def allNodesProps : PropList → List (List String × JSONSchemaProps)
  | .nil => []
  | .cons n c rest => (allNodes c).map (fun q => (n :: q.1, q.2)) ++ allNodesProps rest
end

/-- Synthetic path string of an access path: the base (root marker `^`) with
`.name` appended for each step. -/
def pathStr (base : String) (p : List String) : String :=
  p.foldl (fun acc n => acc ++ "." ++ n) base

/-- Expected flat-schema entries of the subtree rooted at `s` placed at `path`. -/
def entriesFrom (path : String) (s : JSONSchemaProps) : FlatSchema :=
  (allNodes s).map (fun q => (pathStr path q.1, q.2))

def entriesFromProps (path : String) (ps : PropList) : FlatSchema :=
  (allNodesProps ps).map (fun q => (pathStr path q.1, q.2))

theorem lookup_cons {β : Type} (k k' : String) (v' : β) (rest : List (String × β)) :
    ((k', v') :: rest).lookup k = if k = k' then some v' else rest.lookup k := by
  by_cases h : k = k'
  · subst h
    simp [List.lookup]
  · rw [if_neg h]
    show (match k == k' with
      | true => some v'
      | false => rest.lookup k) = rest.lookup k
    rw [beq_eq_false_iff_ne.mpr h]

theorem lookup_eq_none_iff (m : FlatSchema) (k : String) :
    m.lookup k = none ↔ k ∉ m.map Prod.fst := by
  induction m with
  | nil => simp
  | cons p rest ih =>
    obtain ⟨k', v'⟩ := p
    rw [lookup_cons]
    by_cases h : k = k'
    · subst h
      simp
    · simp [h, ih, Ne.symm h]

theorem lookup_append_of_none {m1 m2 : FlatSchema} {k : String} (h : m1.lookup k = none) :
    (m1 ++ m2).lookup k = m2.lookup k := by
  induction m1 with
  | nil => simp
  | cons p rest ih =>
    obtain ⟨k', v'⟩ := p
    rw [lookup_cons] at h
    by_cases hk : k = k'
    · rw [if_pos hk] at h
      cases h
    · rw [if_neg hk] at h
      rw [List.cons_append, lookup_cons, if_neg hk]
      exact ih h

theorem mapInsert_of_lookup_none {m : FlatSchema} {k : String} {v : JSONSchemaProps}
    (h : m.lookup k = none) : mapInsert m k v = m ++ [(k, v)] := by
  induction m with
  | nil => rfl
  | cons p rest ih =>
    obtain ⟨k', v'⟩ := p
    rw [lookup_cons] at h
    by_cases hk : k = k'
    · rw [if_pos hk] at h
      cases h
    · rw [if_neg hk] at h
      simp [mapInsert, Ne.symm hk, ih h]

theorem entriesFrom_mk (path : String) (a b : String) (c d : List String)
    (e : Option String) (f : Option Int) (ps : PropList) :
    entriesFrom path (.mk a b c d e f ps) =
      (path, JSONSchemaProps.mk a b c d e f ps) :: entriesFromProps path ps := by
  simp [entriesFrom, allNodes, entriesFromProps, pathStr]

theorem entriesFromProps_cons (path n : String) (c : JSONSchemaProps) (rest : PropList) :
    entriesFromProps path (.cons n c rest) =
      entriesFrom (path ++ "." ++ n) c ++ entriesFromProps path rest := by
  simp only [entriesFromProps, allNodesProps, entriesFrom, List.map_append, List.map_map]
  congr 1

mutual
theorem flattenInto_eq (s : JSONSchemaProps) : ∀ (acc : FlatSchema) (path : String),
    ((entriesFrom path s).map Prod.fst).Nodup →
    (∀ k ∈ (entriesFrom path s).map Prod.fst, acc.lookup k = none) →
    FlattenSchemaInto acc path s = acc ++ entriesFrom path s := by
  match s with
  | .mk a b c d e f ps =>
    intro acc path hnd hfresh
    rw [entriesFrom_mk] at hnd hfresh ⊢
    simp only [List.map_cons] at hnd hfresh
    have hpf : acc.lookup path = none := hfresh path (by simp)
    have hnd' := List.nodup_cons.mp hnd
    simp only [FlattenSchemaInto]
    rw [mapInsert_of_lookup_none hpf]
    rw [flattenProps_eq ps (acc ++ [(path, JSONSchemaProps.mk a b c d e f ps)]) path hnd'.2 ?_]
    · simp
    · intro k hk
      rw [lookup_append_of_none (hfresh k (by simp [hk]))]
      have hne : k ≠ path := by
        intro hkp
        subst hkp
        exact hnd'.1 hk
      rw [lookup_cons, if_neg hne]
      rfl
theorem flattenProps_eq (ps : PropList) : ∀ (acc : FlatSchema) (path : String),
    ((entriesFromProps path ps).map Prod.fst).Nodup →
    (∀ k ∈ (entriesFromProps path ps).map Prod.fst, acc.lookup k = none) →
    flattenProps acc path ps = acc ++ entriesFromProps path ps := by
  match ps with
  | .nil =>
    intro acc path _ _
    simp [flattenProps, entriesFromProps, allNodesProps]
  | .cons n c rest =>
    intro acc path hnd hfresh
    rw [entriesFromProps_cons] at hnd hfresh ⊢
    simp only [List.map_append] at hnd hfresh
    obtain ⟨nd1, nd2, disj⟩ := List.nodup_append.mp hnd
    simp only [flattenProps]
    rw [flattenInto_eq c acc (path ++ "." ++ n) nd1
      (fun k hk => hfresh k (List.mem_append.mpr (Or.inl hk)))]
    rw [flattenProps_eq rest (acc ++ entriesFrom (path ++ "." ++ n) c) path nd2 ?_]
    · simp
    · intro k hk
      rw [lookup_append_of_none (hfresh k (List.mem_append.mpr (Or.inr hk)))]
      rw [lookup_eq_none_iff]
      intro hmem
      exact disj hmem hk
end

/-- C9 is refuted as stated: path strings are synthesized by joining names with
a dot and recorded in a Go map, so a property name containing a dot collides
with a deeper node. With root children "a.b" (a leaf) and "a" (containing leaf
child "b"), both the leaf and the deeper node map to path "^.a.b": the tree has
4 reachable nodes but the flat map has only 3 entries, the later visit having
overwritten the earlier one. -/
theorem FlattenSchema_dedup_counterexample :
    (FlattenSchema (some (.mk "" "" [] [] none none
      (.cons "a.b" (sampleNode "x" [] [])
        (.cons "a" (.mk "" "" [] [] none none (.cons "b" (sampleNode "y" [] []) .nil))
          .nil))))).length = 3 ∧
    (allNodes (.mk "" "" [] [] none none
      (.cons "a.b" (sampleNode "x" [] [])
        (.cons "a" (.mk "" "" [] [] none none (.cons "b" (sampleNode "y" [] []) .nil))
          .nil)))).length = 4 ∧
    (FlattenSchema (some (.mk "" "" [] [] none none
      (.cons "a.b" (sampleNode "x" [] [])
        (.cons "a" (.mk "" "" [] [] none none (.cons "b" (sampleNode "y" [] []) .nil))
          .nil))))).lookup "^.a.b" = some (sampleNode "y" [] []) := by
  decide

/-- C9 (amended): for every non-nil schema tree whose synthesized node paths
are pairwise distinct (sibling-name uniqueness alone does not guarantee this:
a property name containing a dot can collide with a deeper node's path),
FlattenSchema returns exactly one entry per reachable node — the root recorded
at `^` and each child at its parent's path with `.name` appended, at every
depth, no node skipped or deduplicated, each entry being (a copy of) the
corresponding node; a nil root yields an empty map. -/
theorem FlattenSchema_correct :
    (∀ root : JSONSchemaProps,
      ((entriesFrom "^" root).map Prod.fst).Nodup →
      FlattenSchema (some root) = entriesFrom "^" root ∧
      (FlattenSchema (some root)).length = (allNodes root).length) ∧
    FlattenSchema none = [] := by
  constructor
  · intro root h
    have he : FlattenSchema (some root) = entriesFrom "^" root :=
      flattenInto_eq root [] "^" h (fun k _ => rfl)
    refine ⟨he, ?_⟩
    rw [he]
    simp [entriesFrom]
  · rfl

/-- Concrete instance (the tree of TestFlattenSchema) discharging the
hypothesis of `FlattenSchema_correct`. -/
theorem FlattenSchema_correct_witness :
    FlattenSchema (some (.mk "" "" [] [] none none
      (.cons "foo" (.mk "" "" [] [] none none (.cons "bar" (sampleNode "" [] []) .nil))
        (.cons "baz" (sampleNode "" [] []) .nil)))) =
      entriesFrom "^" (.mk "" "" [] [] none none
        (.cons "foo" (.mk "" "" [] [] none none (.cons "bar" (sampleNode "" [] []) .nil))
          (.cons "baz" (sampleNode "" [] []) .nil))) :=
  (FlattenSchema_correct.1 (.mk "" "" [] [] none none
      (.cons "foo" (.mk "" "" [] [] none none (.cons "bar" (sampleNode "" [] []) .nil))
        (.cons "baz" (sampleNode "" [] []) .nil))) (by decide)).1

/-- ChangeValidation is the Go `func(diff FieldDiff) (bool, error)`; pointer
mutation of the diff is modelled by the returned post-state. -/
abbrev ChangeValidation := FieldDiff → ValidationResult

def fieldErrMsg (version fieldName e : String) : String :=
  "version \x22" ++ version ++ "\x22, field \x22" ++ fieldName ++ "\x22: " ++ e

def unknownChangeMsg (version fieldName : String) : String :=
  "version \x22" ++ version ++ "\x22, field \x22" ++ fieldName ++
    "\x22 has unknown change, refusing to determine that change is safe"

def calcVersionErrMsg (version : String) : String :=
  "calculating schema diff for CRD version \x22" ++ version ++ "\x22"

/-- Inner loop of ChangeValidator.Validate over one FieldDiff: invoke each
validation in order, wrapping and collecting any returned error, and break at
the first one reporting handled; the mutated diff is threaded to the next
validation. Returns the final diff state, the collected errors, and whether
some validation handled the diff. -/
def runValidations (version fieldName : String) :
    List ChangeValidation → FieldDiff → FieldDiff × List String × Bool
  | [], diff => (diff, [], false)
  | v :: rest, diff =>
    let r := v diff
    let errs := match r.err with
      | some e => [fieldErrMsg version fieldName e]
      | none => []
    if r.handled then (r.diff, errs, true)
    else
      let tail := runValidations version fieldName rest r.diff
      (tail.1, errs ++ tail.2.1, tail.2.2)

/-- Per-diff body of ChangeValidator.Validate: the chain's collected errors,
plus the deny-by-default unknown-change error when no validation handled the
diff. -/
def processDiff (validations : List ChangeValidation) (version fieldName : String)
    (diff : FieldDiff) : List String :=
  let r := runValidations version fieldName validations diff
  if r.2.2 then r.2.1 else r.2.1 ++ [unknownChangeMsg version fieldName]

/-- One CRD schema version: its name and its OpenAPIV3Schema root (a nil
pointer in Go is `none`). -/
structure CustomResourceDefinitionVersion where
  name : String
  schema : Option JSONSchemaProps
  deriving DecidableEq, Repr

/-- Restriction of a CRD to what ChangeValidator.Validate reads: its list of
versions. -/
structure CustomResourceDefinition where
  versions : List CustomResourceDefinitionVersion
  deriving DecidableEq, Repr

/-- Modelled from the spec: the external `manifestcomparators.GetVersionByName`
returns the version of the CRD carrying the given name, if any. -/
def getVersionByName (crd : CustomResourceDefinition) (name : String) :
    Option CustomResourceDefinitionVersion :=
  crd.versions.find? (fun v => v.name = name)

/-- Per-version body of ChangeValidator.Validate: a version absent from the
new CRD is skipped; otherwise both schemas are flattened and diffed, a diff
error is recorded and the version abandoned, and otherwise each FieldDiff runs
the validation chain (`processDiff`). -/
def processVersion (validations : List ChangeValidation)
    (new : CustomResourceDefinition) (version : CustomResourceDefinitionVersion) :
    List String :=
  match getVersionByName new version.name with
  | none => []
  | some newVersion =>
    let flatOld := FlattenSchema version.schema
    let flatNew := FlattenSchema newVersion.schema
    let res := CalculateFlatSchemaDiff flatOld flatNew
    match res.2 with
    | some _ => [calcVersionErrMsg version.name]
    | none => res.1.flatMap (fun p => processDiff validations version.name p.1 p.2)

/-- ChangeValidator.Validate from change_validator.go: run `processVersion`
over every version of the old CRD, collecting errors; they are joined into one
aggregate error (`some errs`), absence of errors yields nil. -/
def ChangeValidator.Validate (validations : List ChangeValidation)
    (old new : CustomResourceDefinition) : Option (List String) :=
  let errs := old.versions.flatMap (processVersion validations new)
  if errs.isEmpty then none else some errs

/-- C2: for every FieldDiff, the per-diff chain of ChangeValidator.Validate
(`processDiff`) invokes the configured ChangeValidations strictly in order,
stops at the first one returning handled (recording that validation's wrapped
error if it returned one, and producing the same output whatever validations
follow), records the errors of earlier non-handling validations while threading
their mutations, and when no validation handles the diff appends the
unknown-change error naming the version and field — even when no validation
itself returned an error; ChangeValidator.Validate feeds every FieldDiff of a
successfully diffed version through this chain. -/
theorem ChangeValidator_chain_correct :
    (∀ (v : ChangeValidation) (rest : List ChangeValidation) (version fieldName : String)
        (d : FieldDiff), (v d).handled = true →
      processDiff (v :: rest) version fieldName d =
        (match (v d).err with
          | some e => [fieldErrMsg version fieldName e]
          | none => [])) ∧
    (∀ (v : ChangeValidation) (rest : List ChangeValidation) (version fieldName : String)
        (d : FieldDiff), (v d).handled = false →
      processDiff (v :: rest) version fieldName d =
        (match (v d).err with
          | some e => [fieldErrMsg version fieldName e]
          | none => []) ++ processDiff rest version fieldName (v d).diff) ∧
    (∀ (validations : List ChangeValidation) (version fieldName : String) (d : FieldDiff),
      (runValidations version fieldName validations d).2.2 = false →
      processDiff validations version fieldName d =
        (runValidations version fieldName validations d).2.1 ++
          [unknownChangeMsg version fieldName]) ∧
    (∀ (validations : List ChangeValidation) (name : String)
        (so sn : Option JSONSchemaProps),
      (CalculateFlatSchemaDiff (FlattenSchema so) (FlattenSchema sn)).2 = none →
      ChangeValidator.Validate validations ⟨[⟨name, so⟩]⟩ ⟨[⟨name, sn⟩]⟩ =
        (if ((CalculateFlatSchemaDiff (FlattenSchema so) (FlattenSchema sn)).1.flatMap
              (fun p => processDiff validations name p.1 p.2)).isEmpty
          then none
          else some ((CalculateFlatSchemaDiff (FlattenSchema so) (FlattenSchema sn)).1.flatMap
              (fun p => processDiff validations name p.1 p.2)))) := by
  refine ⟨?_, ?_, ?_, ?_⟩
  · intro v rest version fieldName d h
    simp [processDiff, runValidations, h]
  · intro v rest version fieldName d h
    cases htail : (runValidations version fieldName rest (v d).diff).2.2 <;>
      simp [processDiff, runValidations, h, htail, List.append_assoc]
  · intro validations version fieldName d h
    simp [processDiff, h]
  · intro validations name so sn h
    have hpv : processVersion validations ⟨[⟨name, sn⟩]⟩ ⟨name, so⟩ =
        (CalculateFlatSchemaDiff (FlattenSchema so) (FlattenSchema sn)).1.flatMap
          (fun p => processDiff validations name p.1 p.2) := by
      unfold processVersion
      split
      · rename_i heq
        simp [getVersionByName] at heq
      · rename_i newVersion heq
        simp [getVersionByName] at heq
        subst heq
        show (match (CalculateFlatSchemaDiff (FlattenSchema so) (FlattenSchema sn)).2 with
          | some _ => [calcVersionErrMsg name]
          | none => (CalculateFlatSchemaDiff (FlattenSchema so) (FlattenSchema sn)).1.flatMap
              (fun p => processDiff validations name p.1 p.2)) =
          (CalculateFlatSchemaDiff (FlattenSchema so) (FlattenSchema sn)).1.flatMap
            (fun p => processDiff validations name p.1 p.2)
        rw [h]
    unfold ChangeValidator.Validate
    simp only [List.flatMap_cons, List.flatMap_nil, List.append_nil, hpv]

/-- Concrete instances discharging the hypotheses of
`ChangeValidator_chain_correct`: a handling validation short-circuits past a
later would-fail validation; a non-handling validation defers; an unhandled
diff yields the unknown-change error alone. -/
theorem ChangeValidator_chain_correct_witness :
    processDiff [fun d => ⟨d, true, some "boom"⟩, fun d => ⟨d, false, some "must not run"⟩]
        "v1" "^.a" ⟨sampleNode "" [] [], sampleNode "" [] []⟩ =
      [fieldErrMsg "v1" "^.a" "boom"] ∧
    processDiff [fun d => ⟨d, false, none⟩] "v1" "^.a"
        ⟨sampleNode "" [] [], sampleNode "" [] []⟩ =
      [] ++ processDiff [] "v1" "^.a" ⟨sampleNode "" [] [], sampleNode "" [] []⟩ ∧
    processDiff [fun d => ⟨d, false, none⟩] "v1" "^.a"
        ⟨sampleNode "" [] [], sampleNode "" [] []⟩ =
      (runValidations "v1" "^.a" [fun d => ⟨d, false, none⟩]
          ⟨sampleNode "" [] [], sampleNode "" [] []⟩).2.1 ++
        [unknownChangeMsg "v1" "^.a"] ∧
    ChangeValidator.Validate [] ⟨[⟨"vx", some (sampleNode "" [] [])⟩]⟩
        ⟨[⟨"vx", some (sampleNode "" [] [])⟩]⟩ =
      (if ((CalculateFlatSchemaDiff (FlattenSchema (some (sampleNode "" [] [])))
              (FlattenSchema (some (sampleNode "" [] [])))).1.flatMap
            (fun p => processDiff [] "vx" p.1 p.2)).isEmpty
        then none
        else some ((CalculateFlatSchemaDiff (FlattenSchema (some (sampleNode "" [] [])))
              (FlattenSchema (some (sampleNode "" [] [])))).1.flatMap
            (fun p => processDiff [] "vx" p.1 p.2))) :=
  ⟨ChangeValidator_chain_correct.1 _ _ "v1" "^.a" _ rfl,
   ChangeValidator_chain_correct.2.1 _ _ "v1" "^.a" _ rfl,
   ChangeValidator_chain_correct.2.2.1 _ "v1" "^.a" _ rfl,
   ChangeValidator_chain_correct.2.2.2 [] "vx" _ _ (by decide)⟩

def PermissionValidatorTypeSelfSubjectAccessReview : String := "SelfSubjectAccessReview"

def PermissionValidatorTypeSelfSubjectRulesReview : String := "SelfSubjectRulesReview"

structure PreflightConfig where
  PermissionValidatorResource : String
  deriving DecidableEq, Repr

/-- Permission preflight check state: the enabled flag and the typed config
(initialised by NewPreflight, read by Run's strategy switch). -/
structure Preflight where
  enabled : Bool
  config : PreflightConfig
  deriving DecidableEq, Repr

def NewPreflight (enabled : Bool) : Preflight :=
  ⟨enabled, ⟨PermissionValidatorTypeSelfSubjectAccessReview⟩⟩

def unknownValidatorMsg (v : String) : String :=
  "unknown permissionValidatorType \x22" ++ v ++ "\x22"

/-- Preflight.SetConfig from preflight.go: the configuration bag is parsed into
the local pCfg (an absent key unmarshals to the empty string) and validated;
note that, as in the Go source, the validated pCfg is never assigned to
p.config — every accepting path returns the receiver unchanged, including the
empty-name path whose write targets only the discarded local. -/
def Preflight.SetConfig (p : Preflight) (cfgResource : String) : Except String Preflight :=
  let pCfg : PreflightConfig := ⟨cfgResource⟩
  if pCfg.PermissionValidatorResource = PermissionValidatorTypeSelfSubjectAccessReview ∨
      pCfg.PermissionValidatorResource = PermissionValidatorTypeSelfSubjectRulesReview then
    Except.ok p
  else if pCfg.PermissionValidatorResource = "" then
    Except.ok p
  else
    Except.error (unknownValidatorMsg pCfg.PermissionValidatorResource)

inductive PermissionValidatorKind where
  | selfSubjectAccessReview
  | selfSubjectRulesReview
  deriving DecidableEq, Repr

/-- Strategy-selection switch at the top of Preflight.Run: which
PermissionValidator implementation backs this run (none for a value outside
the switch, which the stored config can in fact never hold). -/
def Preflight.runValidatorSelection (p : Preflight) : Option PermissionValidatorKind :=
  if p.config.PermissionValidatorResource = PermissionValidatorTypeSelfSubjectAccessReview then
    some .selfSubjectAccessReview
  else if p.config.PermissionValidatorResource = PermissionValidatorTypeSelfSubjectRulesReview then
    some .selfSubjectRulesReview
  else
    none

/-- Attributes of one authorization question, `authv1.ResourceAttributes`. -/
structure ResourceAttributes where
  Group : String
  Version : String
  Resource : String
  Namespace : String
  Name : String
  Verb : String
  deriving DecidableEq, Repr

/-- `schema.GroupVersionResource.String()`. -/
def gvrString (group version resource : String) : String :=
  group ++ "/" ++ version ++ ", Resource=" ++ resource

def notPermittedMsg (verb gvr : String) : String :=
  "not permitted to \x22" ++ verb ++ "\x22 " ++ gvr

/-- Outcome of one SelfSubjectAccessReview remote call, as the validator
distinguishes them: transport error, nil review, evaluation error, or a
definitive allowed/denied answer. -/
inductive SSARResponse where
  | createErr (e : String)
  | nilReview
  | evalErr (e : String)
  | reviewed (allowed : Bool)
  deriving DecidableEq, Repr

/-- SelfSubjectAccessReviewValidator.ValidatePermissions (the direct strategy):
one authorization query per call; fails on transport error, nil response,
evaluation error, or deny (naming the verb and fully-qualified resource). -/
def SelfSubjectAccessReviewValidator.ValidatePermissions
    (ssarClient : ResourceAttributes → SSARResponse)
    (resourceAttrib : ResourceAttributes) : Option String :=
  match ssarClient resourceAttrib with
  | .createErr e => some e
  | .nilReview => some "unable to validate permissions: returned SelfSubjectAccessReview is nil"
  | .evalErr e => some ("unable to validate permissions: " ++ e)
  | .reviewed allowed =>
    if allowed then none
    else some (notPermittedMsg resourceAttrib.Verb
      (gvrString resourceAttrib.Group resourceAttrib.Version resourceAttrib.Resource))

/-- C1 fails on the code: Preflight.SetConfig validates and accepts the
configuration naming the SelfSubjectRulesReview strategy but never stores the
parsed config into the receiver (the Go function builds pCfg and returns
without `p.config = pCfg`), so a subsequent Run still selects the direct
SelfSubjectAccessReview strategy from the constructor default; rejection of an
unknown name and acceptance of an absent name still happen at configuration
time, but the named strategy never backs Run. -/
theorem SetConfig_discards_validated_config :
    Preflight.SetConfig (NewPreflight true) PermissionValidatorTypeSelfSubjectRulesReview =
      Except.ok (NewPreflight true) ∧
    Preflight.runValidatorSelection (NewPreflight true) =
      some PermissionValidatorKind.selfSubjectAccessReview ∧
    Preflight.runValidatorSelection (NewPreflight true) ≠
      some PermissionValidatorKind.selfSubjectRulesReview ∧
    Preflight.SetConfig (NewPreflight true) "bogus" = Except.error (unknownValidatorMsg "bogus") ∧
    Preflight.SetConfig (NewPreflight true) "" = Except.ok (NewPreflight true) :=
  ⟨rfl, by decide, by decide, rfl, rfl⟩

/-- Operations of the change graph that Run's switch handles. -/
inductive ActualChangeOp where
  | delete
  | upsert
  deriving DecidableEq, Repr

/-- Verbs the spec requires per operation: Delete checks delete; Upsert checks
both create and update. -/
def requiredVerbs : ActualChangeOp → List String
  | .delete => ["delete"]
  | .upsert => ["create", "update"]

/-- Error-collection loop of Preflight.Run over the change graph (resources of
an abstract type `α`, the composite validator abstracted as `validate`):
delete operations check the delete verb, upserts check create then update,
every failure is appended to errorSet and iteration always continues. -/
def preflightErrorSet {α : Type} (validate : α → String → Option String) :
    List (α × ActualChangeOp) → List String → List String
  | [], errorSet => errorSet
  | (res, op) :: rest, errorSet =>
    match op with
    | .delete =>
      let errorSet := match validate res "delete" with
        | some e => errorSet ++ [e]
        | none => errorSet
      preflightErrorSet validate rest errorSet
    | .upsert =>
      let errorSet := match validate res "create" with
        | some e => errorSet ++ [e]
        | none => errorSet
      let errorSet := match validate res "update" with
        | some e => errorSet ++ [e]
        | none => errorSet
      preflightErrorSet validate rest errorSet

/-- Preflight.Run's verdict: joined error set if any check failed, nil
otherwise. -/
def Preflight.RunPermissionChecks {α : Type} (validate : α → String → Option String)
    (changes : List (α × ActualChangeOp)) : Option (List String) :=
  let errorSet := preflightErrorSet validate changes []
  if errorSet.isEmpty then none else some errorSet

/-- Group and kind of a resource, `schema.GroupKind` as `res.GroupKind()`
returns it. -/
structure GroupKind where
  Group : String
  Kind : String
  deriving DecidableEq, Repr

structure GroupVersionResource where
  Group : String
  Version : String
  Resource : String
  deriving DecidableEq, Repr

/-- Restriction of `meta.RESTMapping` to the field BasicValidator reads: the
plural resource triple. -/
structure RESTMapping where
  Resource : GroupVersionResource
  deriving DecidableEq, Repr

/-- A cluster resource as BasicValidator.Validate reads it: its GroupKind, the
version of its GroupVersion, its namespace and its name. -/
structure KubeResource where
  groupKind : GroupKind
  version : String
  Namespace : String
  Name : String
  deriving DecidableEq, Repr

/-- BasicValidator.Validate from basic_validator.go: resolve the resource's
group-kind and version through the REST mapper — a mapper failure is returned
as-is — then issue one authorization query for the mapped resource triple, the
resource's namespace and name, and the requested verb, delegating to the
configured PermissionValidator. The mapper is the external `meta.RESTMapper`,
passed as an oracle. -/
def BasicValidator.Validate
    (permissionValidator : ResourceAttributes → Option String)
    (mapper : GroupKind → String → Except String RESTMapping)
    (res : KubeResource) (verb : String) : Option String :=
  match mapper res.groupKind res.version with
  | .error e => some e
  | .ok mapping =>
    permissionValidator ⟨mapping.Resource.Group, mapping.Resource.Version,
      mapping.Resource.Resource, res.Namespace, res.Name, verb⟩

theorem BasicValidator_Validate_ok
    (permissionValidator : ResourceAttributes → Option String)
    (mapper : GroupKind → String → Except String RESTMapping)
    (res : KubeResource) (verb : String) (mapping : RESTMapping)
    (hm : mapper res.groupKind res.version = .ok mapping) :
    BasicValidator.Validate permissionValidator mapper res verb =
      permissionValidator ⟨mapping.Resource.Group, mapping.Resource.Version,
        mapping.Resource.Resource, res.Namespace, res.Name, verb⟩ := by
  unfold BasicValidator.Validate
  rw [hm]

theorem BasicValidator_Validate_err
    (permissionValidator : ResourceAttributes → Option String)
    (mapper : GroupKind → String → Except String RESTMapping)
    (res : KubeResource) (verb e : String)
    (hm : mapper res.groupKind res.version = .error e) :
    BasicValidator.Validate permissionValidator mapper res verb = some e := by
  unfold BasicValidator.Validate
  rw [hm]

theorem preflightErrorSet_eq {α : Type} (validate : α → String → Option String)
    (changes : List (α × ActualChangeOp)) :
    ∀ acc : List String,
      preflightErrorSet validate changes acc =
        acc ++ changes.flatMap (fun c => (requiredVerbs c.2).filterMap (validate c.1)) := by
  induction changes with
  | nil => intro acc; simp [preflightErrorSet]
  | cons c rest ih =>
    intro acc
    obtain ⟨res, op⟩ := c
    cases op
    · cases hv : validate res "delete" <;>
        simp [preflightErrorSet, hv, ih, requiredVerbs, List.filterMap_cons, List.append_assoc]
    · cases hc : validate res "create" <;> cases hu : validate res "update" <;>
        simp [preflightErrorSet, hc, hu, ih, requiredVerbs, List.filterMap_cons, List.append_assoc]

/-- C6: Preflight.Run checks, for every Change in order, verb delete for a
Delete operation and both create and update for an Upsert, collecting every
failure without short-circuiting; the run returns nil exactly when every
required verb of every change passes; with the direct strategy behind the
basic validator, an Upsert whose REST mapping succeeds but whose create
permission is denied yields the error naming verb create and the mapped
group/version/resource triple even though update would have been permitted;
and a REST-mapping failure is returned by the basic validator as-is. -/
theorem Preflight_Run_correct :
    (∀ (α : Type) (validate : α → String → Option String)
        (changes : List (α × ActualChangeOp)),
      preflightErrorSet validate changes [] =
        changes.flatMap (fun c => (requiredVerbs c.2).filterMap (validate c.1))) ∧
    (∀ (α : Type) (validate : α → String → Option String)
        (changes : List (α × ActualChangeOp)),
      Preflight.RunPermissionChecks validate changes = none ↔
        ∀ c ∈ changes, ∀ verb ∈ requiredVerbs c.2, validate c.1 verb = none) ∧
    (∀ (ssarClient : ResourceAttributes → SSARResponse)
        (mapper : GroupKind → String → Except String RESTMapping)
        (res : KubeResource) (mapping : RESTMapping),
      mapper res.groupKind res.version = .ok mapping →
      ssarClient ⟨mapping.Resource.Group, mapping.Resource.Version, mapping.Resource.Resource,
        res.Namespace, res.Name, "create"⟩ = SSARResponse.reviewed false →
      ssarClient ⟨mapping.Resource.Group, mapping.Resource.Version, mapping.Resource.Resource,
        res.Namespace, res.Name, "update"⟩ = SSARResponse.reviewed true →
      Preflight.RunPermissionChecks
          (BasicValidator.Validate
            (SelfSubjectAccessReviewValidator.ValidatePermissions ssarClient) mapper)
          [(res, ActualChangeOp.upsert)] =
        some [notPermittedMsg "create"
          (gvrString mapping.Resource.Group mapping.Resource.Version
            mapping.Resource.Resource)]) ∧
    (∀ (permissionValidator : ResourceAttributes → Option String)
        (mapper : GroupKind → String → Except String RESTMapping)
        (res : KubeResource) (verb e : String),
      mapper res.groupKind res.version = .error e →
      BasicValidator.Validate permissionValidator mapper res verb = some e) := by
  refine ⟨?_, ?_, ?_, ?_⟩
  · intro α validate changes
    simpa using preflightErrorSet_eq validate changes []
  · intro α validate changes
    have he := preflightErrorSet_eq validate changes []
    simp only [List.nil_append] at he
    simp only [Preflight.RunPermissionChecks, he]
    constructor
    · intro h c hc verb hverb
      by_cases hempty :
          (changes.flatMap (fun c => (requiredVerbs c.2).filterMap (validate c.1))).isEmpty
      · rw [List.isEmpty_iff] at hempty
        have := List.flatMap_eq_nil_iff.mp hempty c hc
        rcases hres : validate c.1 verb with _ | e
        · rfl
        · exfalso
          have : e ∈ (requiredVerbs c.2).filterMap (validate c.1) :=
            List.mem_filterMap.mpr ⟨verb, hverb, hres⟩
          rw [List.flatMap_eq_nil_iff.mp hempty c hc] at this
          cases this
      · rw [if_neg (by simpa using hempty)] at h
        cases h
    · intro h
      have : (changes.flatMap (fun c => (requiredVerbs c.2).filterMap (validate c.1))) = [] := by
        rw [List.flatMap_eq_nil_iff]
        intro c hc
        rw [List.filterMap_eq_nil_iff]
        intro verb hverb
        exact h c hc verb hverb
      simp [this]
  · intro ssarClient mapper res mapping hm hc hu
    have hvc : BasicValidator.Validate
        (SelfSubjectAccessReviewValidator.ValidatePermissions ssarClient) mapper res "create" =
        some (notPermittedMsg "create"
          (gvrString mapping.Resource.Group mapping.Resource.Version
            mapping.Resource.Resource)) := by
      rw [BasicValidator_Validate_ok _ _ _ _ _ hm]
      unfold SelfSubjectAccessReviewValidator.ValidatePermissions
      rw [hc]
      simp
    have hvu : BasicValidator.Validate
        (SelfSubjectAccessReviewValidator.ValidatePermissions ssarClient) mapper res "update" =
        none := by
      rw [BasicValidator_Validate_ok _ _ _ _ _ hm]
      unfold SelfSubjectAccessReviewValidator.ValidatePermissions
      rw [hu]
      simp
    simp [Preflight.RunPermissionChecks, preflightErrorSet, hvc, hvu]
  · intro permissionValidator mapper res verb e hm
    exact BasicValidator_Validate_err permissionValidator mapper res verb e hm

/-- Concrete instances discharging the hypotheses of `Preflight_Run_correct`:
an authorizer denying create but allowing update on one Upsert change whose
REST mapping succeeds, and a resource whose REST mapping fails. -/
theorem Preflight_Run_correct_witness :
    Preflight.RunPermissionChecks
        (BasicValidator.Validate
          (SelfSubjectAccessReviewValidator.ValidatePermissions
            (fun a => if a.Verb = "create" then SSARResponse.reviewed false
              else SSARResponse.reviewed true))
          (fun gk _ => if gk.Kind = "Deployment"
            then Except.ok ⟨⟨"apps", "v1", "deployments"⟩⟩ else Except.error "no mapping"))
        [(⟨⟨"apps", "Deployment"⟩, "v1", "ns", "d"⟩, ActualChangeOp.upsert)] =
      some [notPermittedMsg "create" (gvrString "apps" "v1" "deployments")] ∧
    BasicValidator.Validate
        (SelfSubjectAccessReviewValidator.ValidatePermissions
          (fun a => if a.Verb = "create" then SSARResponse.reviewed false
            else SSARResponse.reviewed true))
        (fun gk _ => if gk.Kind = "Deployment"
          then Except.ok ⟨⟨"apps", "v1", "deployments"⟩⟩ else Except.error "no mapping")
        ⟨⟨"", "Secret"⟩, "v1", "ns", "s"⟩ "delete" = some "no mapping" :=
  ⟨Preflight_Run_correct.2.2.1
      (fun a => if a.Verb = "create" then SSARResponse.reviewed false
        else SSARResponse.reviewed true)
      (fun gk _ => if gk.Kind = "Deployment"
        then Except.ok ⟨⟨"apps", "v1", "deployments"⟩⟩ else Except.error "no mapping")
      ⟨⟨"apps", "Deployment"⟩, "v1", "ns", "d"⟩ ⟨⟨"apps", "v1", "deployments"⟩⟩
      rfl rfl rfl,
   Preflight_Run_correct.2.2.2
      (SelfSubjectAccessReviewValidator.ValidatePermissions
        (fun a => if a.Verb = "create" then SSARResponse.reviewed false
          else SSARResponse.reviewed true))
      (fun gk _ => if gk.Kind = "Deployment"
        then Except.ok ⟨⟨"apps", "v1", "deployments"⟩⟩ else Except.error "no mapping")
      ⟨⟨"", "Secret"⟩, "v1", "ns", "s"⟩ "delete" "no mapping" rfl⟩

/-- Policy rule, `rbacv1.PolicyRule` restricted to the fields this core uses. -/
structure PolicyRule where
  Verbs : List String
  APIGroups : List String
  Resources : List String
  ResourceNames : List String
  NonResourceURLs : List String
  deriving DecidableEq, Repr

/-- Resource-scoped rule of a SelfSubjectRulesReview status. -/
structure SSRRResourceRule where
  Verbs : List String
  APIGroups : List String
  Resources : List String
  ResourceNames : List String
  deriving DecidableEq, Repr

/-- Non-resource-scoped rule of a SelfSubjectRulesReview status. -/
structure SSRRNonResourceRule where
  Verbs : List String
  NonResourceURLs : List String
  deriving DecidableEq, Repr

/-- Outcome of one bulk SelfSubjectRulesReview remote call: transport error, or
a reviewed status with its incompleteness flag and rule sets. -/
inductive SSRRResponse where
  | createErr (e : String)
  | reviewed (incomplete : Bool) (resourceRules : List SSRRResourceRule)
      (nonResourceRules : List SSRRNonResourceRule)
  deriving DecidableEq, Repr

/-- Conversion of a reviewed status's rule sets into PolicyRules, exactly the
two append loops of the Go code (resource-scoped rules first). -/
def convertRules (resourceRules : List SSRRResourceRule)
    (nonResourceRules : List SSRRNonResourceRule) : List PolicyRule :=
  resourceRules.map (fun r => ⟨r.Verbs, r.APIGroups, r.Resources, r.ResourceNames, []⟩) ++
    nonResourceRules.map (fun r => ⟨r.Verbs, [], [], [], r.NonResourceURLs⟩)

/-- Modelled from the spec: local rule evaluation (the external
`rbacauthorizer.RulesAllow`): a resource request is allowed iff at least one
rule's verbs, API groups and resources match (with the `*` wildcard) and, when
the rule restricts by resource name, the name matches too. -/
def ruleAllows (attrs : ResourceAttributes) (rule : PolicyRule) : Bool :=
  (rule.Verbs.contains "*" || rule.Verbs.contains attrs.Verb) &&
  (rule.APIGroups.contains "*" || rule.APIGroups.contains attrs.Group) &&
  (rule.Resources.contains "*" || rule.Resources.contains attrs.Resource) &&
  (rule.ResourceNames.isEmpty || rule.ResourceNames.contains attrs.Name)

def rulesAllow (attrs : ResourceAttributes) (rules : List PolicyRule) : Bool :=
  rules.any (ruleAllows attrs)

/-- Per-namespace rule cache of the cached strategy. -/
abbrev RulesCache := List (String × List PolicyRule)

/-- Go map assignment `rv.cache[ns] = rules`. -/
def cacheInsert : RulesCache → String → List PolicyRule → RulesCache
  | [], k, v => [(k, v)]
  | (k', v') :: rest, k, v =>
    if k' = k then (k, v) :: rest else (k', v') :: cacheInsert rest k v

def evalPermission (rules : List PolicyRule) (attrs : ResourceAttributes) : Option String :=
  if rulesAllow attrs rules then none
  else some (notPermittedMsg attrs.Verb (gvrString attrs.Group attrs.Version attrs.Resource))

def ssrrCreateErrMsg (e : String) : String := "creating selfsubjectrulesreview: " ++ e

def ssrrIncompleteMsg : String := "selfsubjectrulesreview is incomplete"

/-- Result of one cached-strategy check: the cache afterwards, the check's
verdict, and the namespaces for which a bulk query was issued during the call. -/
structure SSRRCallResult where
  cache : RulesCache
  err : Option String
  queries : List String
  deriving Repr

/-- SelfSubjectRulesReviewValidator.ValidatePermissions (the cached strategy):
the namespace is normalized (empty becomes "default") before the cache lookup;
a miss issues one bulk query, failing without caching when it errors or is
incomplete, and otherwise converts and stores the rule sets; the (looked-up or
just-stored) rules are then evaluated locally. The receiver's mutable cache is
modelled by explicit state passing; the mutex serialising the Go method is
concurrency plumbing with no sequential content. -/
def SelfSubjectRulesReviewValidator.ValidatePermissions
    (ssrrClient : String → SSRRResponse) (cache : RulesCache)
    (resourceAttrib : ResourceAttributes) : SSRRCallResult :=
  let ns := if resourceAttrib.Namespace = "" then "default" else resourceAttrib.Namespace
  match cache.lookup ns with
  | some rules => ⟨cache, evalPermission rules resourceAttrib, []⟩
  | none =>
    match ssrrClient ns with
    | .createErr e => ⟨cache, some (ssrrCreateErrMsg e), [ns]⟩
    | .reviewed incomplete rr nrr =>
      if incomplete then ⟨cache, some ssrrIncompleteMsg, [ns]⟩
      else
        let rules := convertRules rr nrr
        ⟨cacheInsert cache ns rules, evalPermission rules resourceAttrib, [ns]⟩

/-- Sequence of cached-strategy checks within one run, threading the cache and
collecting each check's verdict and every bulk query issued. -/
def runPermissionChecks (ssrrClient : String → SSRRResponse) :
    RulesCache → List ResourceAttributes → RulesCache × List (Option String) × List String
  | cache, [] => (cache, [], [])
  | cache, attrs :: rest =>
    let r := SelfSubjectRulesReviewValidator.ValidatePermissions ssrrClient cache attrs
    let tail := runPermissionChecks ssrrClient r.cache rest
    (tail.1, r.err :: tail.2.1, r.queries ++ tail.2.2)

def normalizeNamespace (ns : String) : String := if ns = "" then "default" else ns

theorem cacheInsert_lookup_self (c : RulesCache) (k : String) (v : List PolicyRule) :
    (cacheInsert c k v).lookup k = some v := by
  induction c with
  | nil => simp [cacheInsert, lookup_cons]
  | cons p rest ih =>
    obtain ⟨k', v'⟩ := p
    by_cases h : k' = k
    · simp [cacheInsert, h, lookup_cons]
    · simp [cacheInsert, h, lookup_cons, Ne.symm h, ih]

theorem cacheInsert_lookup_ne (c : RulesCache) (k k' : String) (v : List PolicyRule)
    (h : k' ≠ k) : (cacheInsert c k v).lookup k' = c.lookup k' := by
  induction c with
  | nil => simp [cacheInsert, lookup_cons, h]
  | cons p rest ih =>
    obtain ⟨k0, v0⟩ := p
    by_cases h0 : k0 = k
    · subst h0
      simp [cacheInsert, lookup_cons, h]
    · simp [cacheInsert, h0, lookup_cons, ih]

theorem vp_hit (ssrrClient : String → SSRRResponse) (cache : RulesCache)
    (attrs : ResourceAttributes) (rules : List PolicyRule)
    (h : cache.lookup (normalizeNamespace attrs.Namespace) = some rules) :
    SelfSubjectRulesReviewValidator.ValidatePermissions ssrrClient cache attrs =
      ⟨cache, evalPermission rules attrs, []⟩ := by
  unfold SelfSubjectRulesReviewValidator.ValidatePermissions
  unfold normalizeNamespace at h
  dsimp only
  rw [h]

theorem vp_miss_ok (ssrrClient : String → SSRRResponse) (cache : RulesCache)
    (attrs : ResourceAttributes) (rr : List SSRRResourceRule) (nrr : List SSRRNonResourceRule)
    (h : cache.lookup (normalizeNamespace attrs.Namespace) = none)
    (hc : ssrrClient (normalizeNamespace attrs.Namespace) = .reviewed false rr nrr) :
    SelfSubjectRulesReviewValidator.ValidatePermissions ssrrClient cache attrs =
      ⟨cacheInsert cache (normalizeNamespace attrs.Namespace) (convertRules rr nrr),
        evalPermission (convertRules rr nrr) attrs, [normalizeNamespace attrs.Namespace]⟩ := by
  unfold SelfSubjectRulesReviewValidator.ValidatePermissions
  unfold normalizeNamespace at h hc ⊢
  dsimp only
  rw [h, hc]
  simp

theorem vp_miss_err (ssrrClient : String → SSRRResponse) (cache : RulesCache)
    (attrs : ResourceAttributes) (e : String)
    (h : cache.lookup (normalizeNamespace attrs.Namespace) = none)
    (hc : ssrrClient (normalizeNamespace attrs.Namespace) = .createErr e) :
    SelfSubjectRulesReviewValidator.ValidatePermissions ssrrClient cache attrs =
      ⟨cache, some (ssrrCreateErrMsg e), [normalizeNamespace attrs.Namespace]⟩ := by
  unfold SelfSubjectRulesReviewValidator.ValidatePermissions
  unfold normalizeNamespace at h hc ⊢
  dsimp only
  rw [h, hc]

theorem vp_miss_incomplete (ssrrClient : String → SSRRResponse) (cache : RulesCache)
    (attrs : ResourceAttributes) (rr : List SSRRResourceRule) (nrr : List SSRRNonResourceRule)
    (h : cache.lookup (normalizeNamespace attrs.Namespace) = none)
    (hc : ssrrClient (normalizeNamespace attrs.Namespace) = .reviewed true rr nrr) :
    SelfSubjectRulesReviewValidator.ValidatePermissions ssrrClient cache attrs =
      ⟨cache, some ssrrIncompleteMsg, [normalizeNamespace attrs.Namespace]⟩ := by
  unfold SelfSubjectRulesReviewValidator.ValidatePermissions
  unfold normalizeNamespace at h hc ⊢
  dsimp only
  rw [h, hc]
  simp

theorem vp_cache_mono (ssrrClient : String → SSRRResponse) (cache : RulesCache)
    (attrs : ResourceAttributes) (k : String) (h : (cache.lookup k).isSome) :
    (((SelfSubjectRulesReviewValidator.ValidatePermissions ssrrClient cache attrs).cache).lookup
      k).isSome := by
  unfold SelfSubjectRulesReviewValidator.ValidatePermissions
  dsimp only
  rcases hl : List.lookup (if attrs.Namespace = "" then "default" else attrs.Namespace) cache with
    _ | rules
  · rcases hc : ssrrClient (if attrs.Namespace = "" then "default" else attrs.Namespace) with
      e | ⟨incomplete, rr, nrr⟩
    · exact h
    · cases incomplete
      · simp only [if_neg (by simp : ¬False)]
        by_cases hk : k = (if attrs.Namespace = "" then "default" else attrs.Namespace)
        · subst hk
          simp [cacheInsert_lookup_self]
        · simp [cacheInsert_lookup_ne _ _ _ _ hk, h]
      · simpa using h
  · exact h

theorem run_count_zero (ssrrClient : String → SSRRResponse) :
    ∀ (l : List ResourceAttributes) (cache : RulesCache) (ns : String),
      (cache.lookup ns).isSome →
      ((runPermissionChecks ssrrClient cache l).2.2.count ns) = 0 := by
  intro l
  induction l with
  | nil => intro cache ns _; simp [runPermissionChecks]
  | cons attrs rest ih =>
    intro cache ns h
    simp only [runPermissionChecks, List.count_append]
    have hq : ((SelfSubjectRulesReviewValidator.ValidatePermissions ssrrClient cache
        attrs).queries.count ns) = 0 := by
      unfold SelfSubjectRulesReviewValidator.ValidatePermissions
      dsimp only
      rcases hl : List.lookup (if attrs.Namespace = "" then "default" else attrs.Namespace)
          cache with _ | rules
      · have hne : (if attrs.Namespace = "" then "default" else attrs.Namespace) ≠ ns := by
          intro heq
          rw [heq] at hl
          rw [hl] at h
          cases h
        rcases hc : ssrrClient (if attrs.Namespace = "" then "default" else attrs.Namespace) with
          e | ⟨incomplete, rr, nrr⟩
        · simp [List.count_cons, hne]
        · cases incomplete
          · simp [List.count_cons, hne]
          · simp [List.count_cons, hne]
      · simp
    rw [hq, ih _ ns (vp_cache_mono ssrrClient cache attrs ns h)]

theorem run_count_le_one (ssrrClient : String → SSRRResponse) :
    ∀ (l : List ResourceAttributes) (cache : RulesCache) (ns : String)
      (rr : List SSRRResourceRule) (nrr : List SSRRNonResourceRule),
      ssrrClient ns = .reviewed false rr nrr →
      ((runPermissionChecks ssrrClient cache l).2.2.count ns) ≤ 1 := by
  intro l
  induction l with
  | nil =>
    intro cache ns rr nrr _
    simp [runPermissionChecks]
  | cons attrs rest ih =>
    intro cache ns rr nrr hok
    simp only [runPermissionChecks, List.count_append]
    rcases hl : cache.lookup (normalizeNamespace attrs.Namespace) with _ | rules
    · rcases hc : ssrrClient (normalizeNamespace attrs.Namespace) with e | ⟨incomplete, rr2, nrr2⟩
      · have hne : normalizeNamespace attrs.Namespace ≠ ns := by
          intro heq
          rw [heq, hok] at hc
          cases hc
        rw [vp_miss_err ssrrClient cache attrs e hl hc]
        simp only [List.count_cons, List.count_nil]
        have : ((normalizeNamespace attrs.Namespace == ns) : Bool) = false := by
          simp [hne]
        simp [this, ih cache ns rr nrr hok]
      · by_cases hns : normalizeNamespace attrs.Namespace = ns
        · rw [hns] at hl hc
          rw [hok] at hc
          injection hc with h1 h2 h3
          subst h1
          subst h2
          subst h3
          have hmiss := vp_miss_ok ssrrClient cache attrs rr nrr (hns ▸ hl) (hns ▸ hok)
          rw [hmiss]
          simp only [hns, List.count_cons, List.count_nil]
          have hz : ((runPermissionChecks ssrrClient
              (cacheInsert cache ns (convertRules rr nrr)) rest).2.2.count ns) = 0 := by
            apply run_count_zero
            simp [cacheInsert_lookup_self]
          simp [hz]
        · cases incomplete
          · rw [vp_miss_ok ssrrClient cache attrs rr2 nrr2 hl hc]
            simp only [List.count_cons, List.count_nil]
            have : ((normalizeNamespace attrs.Namespace == ns) : Bool) = false := by
              simp [hns]
            simp [this, ih _ ns rr nrr hok]
          · rw [vp_miss_incomplete ssrrClient cache attrs rr2 nrr2 hl hc]
            simp only [List.count_cons, List.count_nil]
            have : ((normalizeNamespace attrs.Namespace == ns) : Bool) = false := by
              simp [hns]
            simp [this, ih cache ns rr nrr hok]
    · rw [vp_hit ssrrClient cache attrs rules hl]
      simp [ih cache ns rr nrr hok]

/-- C7 is refuted as stated: a failed bulk query is not cached, so a second
check in the same namespace issues a second bulk query in the same run. With a
client whose SelfSubjectRulesReview creation always errors, two checks in
namespace "a" issue two bulk queries for "a" (and both checks fail). -/
theorem SSRR_failed_query_requery_counterexample :
    (runPermissionChecks (fun _ => SSRRResponse.createErr "boom") []
        [⟨"", "v1", "pods", "a", "", "get"⟩, ⟨"", "v1", "pods", "a", "", "get"⟩]).2.2 =
      ["a", "a"] ∧
    (runPermissionChecks (fun _ => SSRRResponse.createErr "boom") []
        [⟨"", "v1", "pods", "a", "", "get"⟩, ⟨"", "v1", "pods", "a", "", "get"⟩]).2.1 =
      [some (ssrrCreateErrMsg "boom"), some (ssrrCreateErrMsg "boom")] := by
  decide

/-- C7 (amended): the cached strategy normalizes an empty namespace to
"default" before the cache lookup; a check on a cached namespace is answered
from the cache with no bulk query and no cache change; on a miss one bulk
query is issued — if it errors or returns an incomplete result the check fails
without caching (never treated as allow), and on a complete success the
converted resource-scoped and non-resource-scoped rules populate the cache and
answer the check — hence a namespace whose bulk query succeeds completely is
queried at most once per run, every later check for it reusing the cache. (A
namespace whose query fails is re-queried by later checks, since the failure
is not cached, refuting the unqualified at-most-one-query claim.) -/
theorem SelfSubjectRulesReview_cache_correct :
    (∀ (ssrrClient : String → SSRRResponse) (cache : RulesCache) (attrs : ResourceAttributes)
        (rules : List PolicyRule),
      cache.lookup (normalizeNamespace attrs.Namespace) = some rules →
      SelfSubjectRulesReviewValidator.ValidatePermissions ssrrClient cache attrs =
        ⟨cache, evalPermission rules attrs, []⟩) ∧
    (∀ (ssrrClient : String → SSRRResponse) (cache : RulesCache) (attrs : ResourceAttributes)
        (rr : List SSRRResourceRule) (nrr : List SSRRNonResourceRule),
      cache.lookup (normalizeNamespace attrs.Namespace) = none →
      ssrrClient (normalizeNamespace attrs.Namespace) = SSRRResponse.reviewed false rr nrr →
      SelfSubjectRulesReviewValidator.ValidatePermissions ssrrClient cache attrs =
        ⟨cacheInsert cache (normalizeNamespace attrs.Namespace) (convertRules rr nrr),
          evalPermission (convertRules rr nrr) attrs, [normalizeNamespace attrs.Namespace]⟩) ∧
    (∀ (ssrrClient : String → SSRRResponse) (cache : RulesCache) (attrs : ResourceAttributes)
        (e : String),
      cache.lookup (normalizeNamespace attrs.Namespace) = none →
      ssrrClient (normalizeNamespace attrs.Namespace) = SSRRResponse.createErr e →
      SelfSubjectRulesReviewValidator.ValidatePermissions ssrrClient cache attrs =
        ⟨cache, some (ssrrCreateErrMsg e), [normalizeNamespace attrs.Namespace]⟩) ∧
    (∀ (ssrrClient : String → SSRRResponse) (cache : RulesCache) (attrs : ResourceAttributes)
        (rr : List SSRRResourceRule) (nrr : List SSRRNonResourceRule),
      cache.lookup (normalizeNamespace attrs.Namespace) = none →
      ssrrClient (normalizeNamespace attrs.Namespace) = SSRRResponse.reviewed true rr nrr →
      SelfSubjectRulesReviewValidator.ValidatePermissions ssrrClient cache attrs =
        ⟨cache, some ssrrIncompleteMsg, [normalizeNamespace attrs.Namespace]⟩) ∧
    (∀ (ssrrClient : String → SSRRResponse) (l : List ResourceAttributes) (cache : RulesCache)
        (ns : String) (rr : List SSRRResourceRule) (nrr : List SSRRNonResourceRule),
      ssrrClient ns = SSRRResponse.reviewed false rr nrr →
      ((runPermissionChecks ssrrClient cache l).2.2.count ns) ≤ 1) :=
  ⟨vp_hit, vp_miss_ok, vp_miss_err, vp_miss_incomplete,
   fun ssrrClient l cache ns rr nrr h => run_count_le_one ssrrClient l cache ns rr nrr h⟩

/-- Concrete instances discharging the hypotheses of
`SelfSubjectRulesReview_cache_correct`: a cache hit with no query, an empty
namespace normalized to "default" populating the cache with one query, a
failing and an incomplete bulk query each failing the check without caching,
and two checks in one namespace issuing at most one successful bulk query. -/
theorem SelfSubjectRulesReview_cache_correct_witness :
    SelfSubjectRulesReviewValidator.ValidatePermissions
        (fun _ => SSRRResponse.reviewed false [] [])
        [("a", [])] ⟨"", "v1", "pods", "a", "", "get"⟩ =
      ⟨[("a", [])], evalPermission [] ⟨"", "v1", "pods", "a", "", "get"⟩, []⟩ ∧
    SelfSubjectRulesReviewValidator.ValidatePermissions
        (fun _ => SSRRResponse.reviewed false [] [])
        [] ⟨"", "v1", "pods", "", "", "get"⟩ =
      ⟨cacheInsert [] (normalizeNamespace "") (convertRules [] []),
        evalPermission (convertRules [] []) ⟨"", "v1", "pods", "", "", "get"⟩,
        [normalizeNamespace ""]⟩ ∧
    SelfSubjectRulesReviewValidator.ValidatePermissions
        (fun _ => SSRRResponse.createErr "boom")
        [] ⟨"", "v1", "pods", "a", "", "get"⟩ =
      ⟨[], some (ssrrCreateErrMsg "boom"), [normalizeNamespace "a"]⟩ ∧
    SelfSubjectRulesReviewValidator.ValidatePermissions
        (fun _ => SSRRResponse.reviewed true [] [])
        [] ⟨"", "v1", "pods", "a", "", "get"⟩ =
      ⟨[], some ssrrIncompleteMsg, [normalizeNamespace "a"]⟩ ∧
    ((runPermissionChecks (fun _ => SSRRResponse.reviewed false [] []) []
        [⟨"", "v1", "pods", "a", "", "get"⟩,
         ⟨"", "v1", "pods", "a", "", "get"⟩]).2.2.count "a") ≤ 1 :=
  ⟨SelfSubjectRulesReview_cache_correct.1 _ _ _ [] (by decide),
   SelfSubjectRulesReview_cache_correct.2.1 _ _ _ [] [] (by decide) rfl,
   SelfSubjectRulesReview_cache_correct.2.2.1 _ _ _ "boom" (by decide) rfl,
   SelfSubjectRulesReview_cache_correct.2.2.2.1 _ _ _ [] [] (by decide) rfl,
   SelfSubjectRulesReview_cache_correct.2.2.2.2 _ _ _ "a" [] [] rfl⟩

structure RoleRef where
  Kind : String
  Name : String
  deriving DecidableEq, Repr

structure RoleBinding where
  Name : String
  Namespace : String
  RoleRef : RoleRef
  deriving DecidableEq, Repr

structure ClusterRoleBinding where
  Name : String
  RoleRef : RoleRef
  deriving DecidableEq, Repr

structure Role where
  Rules : List PolicyRule
  deriving DecidableEq, Repr

structure ClusterRole where
  Rules : List PolicyRule
  deriving DecidableEq, Repr

/-- The rbacv1 client interface as the resolvers use it: fetch a ClusterRole by
name, or a Role by namespace and name; a fetch may fail. -/
structure RbacClient where
  ClusterRoles : String → Except String ClusterRole
  Roles : String → String → Except String Role

/-- A cluster resource as RulesForBinding inspects it: its kind and the result
of the fallible `AsTypedObj` conversions to each binding type (none models a
conversion error). -/
structure BindingResource where
  Kind : String
  asRoleBinding : Option RoleBinding
  asClusterRoleBinding : Option ClusterRoleBinding
  deriving Repr

def convertRoleBindingErrMsg : String :=
  "converting resource to typed RoleBinding object"

def convertClusterRoleBindingErrMsg : String :=
  "converting resource to typed ClusterRoleBinding object"

def unknownBindingKindMsg (kind : String) : String :=
  "unknown binding kind \x22" ++ kind ++ "\x22"

def unknownRoleRefMsg (kind : String) : String :=
  "unknown role reference kind: \x22" ++ kind ++ "\x22"

def fetchClusterRoleForRoleBindingMsg (roleName rbName e : String) : String :=
  "fetching ClusterRole \x22" ++ roleName ++ "\x22 for RoleBinding \x22" ++ rbName ++ "\x22: " ++ e

def fetchRoleForRoleBindingMsg (roleName rbName e : String) : String :=
  "fetching Role \x22" ++ roleName ++ "\x22 for RoleBinding \x22" ++ rbName ++ "\x22: " ++ e

def fetchClusterRoleForClusterRoleBindingMsg (roleName crbName e : String) : String :=
  "fetching ClusterRole \x22" ++ roleName ++ "\x22 for ClusterRoleBinding \x22" ++ crbName ++
    "\x22: " ++ e

/-- RulesForRoleBinding: resolve a RoleBinding's role reference — a ClusterRole
fetched by name, or a namespaced Role fetched in the binding's namespace — and
return the referent's rules; an unrecognized reference kind fails. -/
def RulesForRoleBinding (rbacClient : RbacClient) (rb : RoleBinding) :
    Except String (List PolicyRule) :=
  if rb.RoleRef.Kind = "ClusterRole" then
    match rbacClient.ClusterRoles rb.RoleRef.Name with
    | .ok role => .ok role.Rules
    | .error e => .error (fetchClusterRoleForRoleBindingMsg rb.RoleRef.Name rb.Name e)
  else if rb.RoleRef.Kind = "Role" then
    match rbacClient.Roles rb.Namespace rb.RoleRef.Name with
    | .ok role => .ok role.Rules
    | .error e => .error (fetchRoleForRoleBindingMsg rb.RoleRef.Name rb.Name e)
  else
    .error (unknownRoleRefMsg rb.RoleRef.Kind)

/-- RulesForClusterRoleBinding: the role reference is resolved as a ClusterRole
by name (the reference kind is not examined — a ClusterRoleBinding may only
reference a ClusterRole). -/
def RulesForClusterRoleBinding (rbacClient : RbacClient) (crb : ClusterRoleBinding) :
    Except String (List PolicyRule) :=
  match rbacClient.ClusterRoles crb.RoleRef.Name with
  | .ok role => .ok role.Rules
  | .error e =>
    .error (fetchClusterRoleForClusterRoleBindingMsg crb.RoleRef.Name crb.Name e)

/-- RulesForBinding: dispatch on the resource kind, convert to the typed
binding, and resolve its role reference; any other kind fails. -/
def RulesForBinding (rbacClient : RbacClient) (res : BindingResource) :
    Except String (List PolicyRule) :=
  if res.Kind = "RoleBinding" then
    match res.asRoleBinding with
    | none => .error convertRoleBindingErrMsg
    | some rb => RulesForRoleBinding rbacClient rb
  else if res.Kind = "ClusterRoleBinding" then
    match res.asClusterRoleBinding with
    | none => .error convertClusterRoleBindingErrMsg
    | some crb => RulesForClusterRoleBinding rbacClient crb
  else
    .error (unknownBindingKindMsg res.Kind)

/-- C8: RulesForBinding converts a RoleBinding or ClusterRoleBinding and
resolves its role reference — a RoleBinding may reference a ClusterRole
(fetched by name) or a namespaced Role (fetched in the binding's namespace),
while a ClusterRoleBinding's reference is resolved only as a ClusterRole —
returning the referent's rules, and failing when the resource kind is neither
binding kind, when the typed conversion fails, when the referent fetch fails,
or when a RoleBinding's role reference kind is unrecognized. -/
theorem RulesForBinding_correct :
    (∀ (rbacClient : RbacClient) (res : BindingResource),
      res.Kind ≠ "RoleBinding" → res.Kind ≠ "ClusterRoleBinding" →
      RulesForBinding rbacClient res = .error (unknownBindingKindMsg res.Kind)) ∧
    (∀ (rbacClient : RbacClient) (res : BindingResource),
      res.Kind = "RoleBinding" → res.asRoleBinding = none →
      RulesForBinding rbacClient res = .error convertRoleBindingErrMsg) ∧
    (∀ (rbacClient : RbacClient) (res : BindingResource) (rb : RoleBinding),
      res.Kind = "RoleBinding" → res.asRoleBinding = some rb →
      RulesForBinding rbacClient res = RulesForRoleBinding rbacClient rb) ∧
    (∀ (rbacClient : RbacClient) (res : BindingResource),
      res.Kind = "ClusterRoleBinding" → res.asClusterRoleBinding = none →
      RulesForBinding rbacClient res = .error convertClusterRoleBindingErrMsg) ∧
    (∀ (rbacClient : RbacClient) (res : BindingResource) (crb : ClusterRoleBinding),
      res.Kind = "ClusterRoleBinding" → res.asClusterRoleBinding = some crb →
      RulesForBinding rbacClient res = RulesForClusterRoleBinding rbacClient crb) ∧
    (∀ (rbacClient : RbacClient) (rb : RoleBinding) (role : ClusterRole),
      rb.RoleRef.Kind = "ClusterRole" →
      rbacClient.ClusterRoles rb.RoleRef.Name = .ok role →
      RulesForRoleBinding rbacClient rb = .ok role.Rules) ∧
    (∀ (rbacClient : RbacClient) (rb : RoleBinding) (e : String),
      rb.RoleRef.Kind = "ClusterRole" →
      rbacClient.ClusterRoles rb.RoleRef.Name = .error e →
      RulesForRoleBinding rbacClient rb =
        .error (fetchClusterRoleForRoleBindingMsg rb.RoleRef.Name rb.Name e)) ∧
    (∀ (rbacClient : RbacClient) (rb : RoleBinding) (role : Role),
      rb.RoleRef.Kind = "Role" →
      rbacClient.Roles rb.Namespace rb.RoleRef.Name = .ok role →
      RulesForRoleBinding rbacClient rb = .ok role.Rules) ∧
    (∀ (rbacClient : RbacClient) (rb : RoleBinding) (e : String),
      rb.RoleRef.Kind = "Role" →
      rbacClient.Roles rb.Namespace rb.RoleRef.Name = .error e →
      RulesForRoleBinding rbacClient rb =
        .error (fetchRoleForRoleBindingMsg rb.RoleRef.Name rb.Name e)) ∧
    (∀ (rbacClient : RbacClient) (rb : RoleBinding),
      rb.RoleRef.Kind ≠ "ClusterRole" → rb.RoleRef.Kind ≠ "Role" →
      RulesForRoleBinding rbacClient rb = .error (unknownRoleRefMsg rb.RoleRef.Kind)) ∧
    (∀ (rbacClient : RbacClient) (crb : ClusterRoleBinding) (role : ClusterRole),
      rbacClient.ClusterRoles crb.RoleRef.Name = .ok role →
      RulesForClusterRoleBinding rbacClient crb = .ok role.Rules) ∧
    (∀ (rbacClient : RbacClient) (crb : ClusterRoleBinding) (e : String),
      rbacClient.ClusterRoles crb.RoleRef.Name = .error e →
      RulesForClusterRoleBinding rbacClient crb =
        .error (fetchClusterRoleForClusterRoleBindingMsg crb.RoleRef.Name crb.Name e)) := by
  refine ⟨?_, ?_, ?_, ?_, ?_, ?_, ?_, ?_, ?_, ?_, ?_, ?_⟩
  · intro c res h1 h2
    unfold RulesForBinding
    rw [if_neg h1, if_neg h2]
  · intro c res h1 h2
    unfold RulesForBinding
    rw [if_pos h1, h2]
  · intro c res rb h1 h2
    unfold RulesForBinding
    rw [if_pos h1, h2]
  · intro c res h1 h2
    unfold RulesForBinding
    rw [if_neg (by rw [h1]; decide), if_pos h1, h2]
  · intro c res crb h1 h2
    unfold RulesForBinding
    rw [if_neg (by rw [h1]; decide), if_pos h1, h2]
  · intro c rb role h1 h2
    unfold RulesForRoleBinding
    rw [if_pos h1, h2]
  · intro c rb e h1 h2
    unfold RulesForRoleBinding
    rw [if_pos h1, h2]
  · intro c rb role h1 h2
    unfold RulesForRoleBinding
    rw [if_neg (by rw [h1]; decide), if_pos h1, h2]
  · intro c rb e h1 h2
    unfold RulesForRoleBinding
    rw [if_neg (by rw [h1]; decide), if_pos h1, h2]
  · intro c rb h1 h2
    unfold RulesForRoleBinding
    rw [if_neg h1, if_neg h2]
  · intro c crb role h
    unfold RulesForClusterRoleBinding
    rw [h]
  · intro c crb e h
    unfold RulesForClusterRoleBinding
    rw [h]

/-- Concrete instances discharging the hypotheses of `RulesForBinding_correct`:
an unrecognized resource kind, a RoleBinding resolved through a ClusterRole
reference, an unrecognized role reference kind, a failing referent fetch, and
a ClusterRoleBinding resolution. -/
theorem RulesForBinding_correct_witness :
    RulesForBinding ⟨fun n => if n = "cr1" then .ok ⟨[]⟩ else .error "nf",
        fun ns n => if ns = "ns1" ∧ n = "r1" then .ok ⟨[]⟩ else .error "nf"⟩
      ⟨"ConfigMap", none, none⟩ = .error (unknownBindingKindMsg "ConfigMap") ∧
    RulesForBinding ⟨fun n => if n = "cr1" then .ok ⟨[]⟩ else .error "nf",
        fun ns n => if ns = "ns1" ∧ n = "r1" then .ok ⟨[]⟩ else .error "nf"⟩
      ⟨"RoleBinding", some ⟨"rb1", "ns1", ⟨"ClusterRole", "cr1"⟩⟩, none⟩ =
      RulesForRoleBinding ⟨fun n => if n = "cr1" then .ok ⟨[]⟩ else .error "nf",
        fun ns n => if ns = "ns1" ∧ n = "r1" then .ok ⟨[]⟩ else .error "nf"⟩
        ⟨"rb1", "ns1", ⟨"ClusterRole", "cr1"⟩⟩ ∧
    RulesForRoleBinding ⟨fun n => if n = "cr1" then .ok ⟨[]⟩ else .error "nf",
        fun ns n => if ns = "ns1" ∧ n = "r1" then .ok ⟨[]⟩ else .error "nf"⟩
      ⟨"rb1", "ns1", ⟨"ClusterRole", "cr1"⟩⟩ = .ok (ClusterRole.mk []).Rules ∧
    RulesForRoleBinding ⟨fun n => if n = "cr1" then .ok ⟨[]⟩ else .error "nf",
        fun ns n => if ns = "ns1" ∧ n = "r1" then .ok ⟨[]⟩ else .error "nf"⟩
      ⟨"rb2", "ns1", ⟨"Role", "r2"⟩⟩ =
      .error (fetchRoleForRoleBindingMsg "r2" "rb2" "nf") ∧
    RulesForRoleBinding ⟨fun n => if n = "cr1" then .ok ⟨[]⟩ else .error "nf",
        fun ns n => if ns = "ns1" ∧ n = "r1" then .ok ⟨[]⟩ else .error "nf"⟩
      ⟨"rb3", "ns1", ⟨"Group", "g"⟩⟩ = .error (unknownRoleRefMsg "Group") ∧
    RulesForClusterRoleBinding ⟨fun n => if n = "cr1" then .ok ⟨[]⟩ else .error "nf",
        fun ns n => if ns = "ns1" ∧ n = "r1" then .ok ⟨[]⟩ else .error "nf"⟩
      ⟨"crb1", ⟨"ClusterRole", "cr1"⟩⟩ = .ok (ClusterRole.mk []).Rules :=
  ⟨RulesForBinding_correct.1 _ _ (by decide) (by decide),
   RulesForBinding_correct.2.2.1 _ _ _ rfl rfl,
   RulesForBinding_correct.2.2.2.2.2.1 _ _ _ rfl rfl,
   RulesForBinding_correct.2.2.2.2.2.2.2.2.1 _ _ _ rfl rfl,
   RulesForBinding_correct.2.2.2.2.2.2.2.2.2.1 _ _ (by decide) (by decide),
   RulesForBinding_correct.2.2.2.2.2.2.2.2.2.2.1 _ _ _ rfl⟩
